import Mathlib

/-!
Verification development for the kee.py AWS CLI profile manager.

The Python source (kee.py) is shallowly embedded here:
* `KeeConfig.load_config` over an abstract read outcome and a JSON value type;
* `AWSConfigManager` (`reformat_config_file`, `remove_profile`) over a model of
  Python `configparser.ConfigParser` with its default settings (strict mode,
  `=`/`:` delimiters, `#`/`;` full-line comments, lowercasing `optionxform`,
  `BasicInterpolation`, a special `DEFAULT` section), together with the
  source's `_write_config_with_formatting` loop;
* `KeeManager` (`add_account`, `use_account`, `remove_account`,
  `_check_credentials`) as pure state-transition functions over a registry
  state, with external effects (subprocess runs, prompts, the spawned
  sub-shell) supplied as oracle inputs and recorded as an event trace.

Strings are modelled as `List Char` in the configparser layer and as `String`
in the registry layer.
-/

namespace Kee

/-! ### Python string helpers -/

/-- Whitespace characters recognised by Python `str.strip` (ASCII range). -/
def isPySpace (c : Char) : Bool :=
  c = ' ' || c = '\t' || c = '\n' || c = '\r' || c = '\x0b' || c = '\x0c'

/-- Model of Python `str.lstrip`. -/
def stripLeft (l : List Char) : List Char := l.dropWhile isPySpace

/-- Model of Python `str.rstrip`. -/
def stripRight (l : List Char) : List Char := (l.reverse.dropWhile isPySpace).reverse

/-- Model of Python `str.strip`. -/
def pyStrip (l : List Char) : List Char := stripRight (stripLeft l)

/-- Lower-casing of one character (ASCII range, as used by `str.lower` and
`configparser.optionxform` on the inputs this development evaluates). -/
def pyLowerChar (c : Char) : Char :=
  if 'A' ≤ c ∧ c ≤ 'Z' then Char.ofNat (c.toNat + 32) else c

/-- Model of Python `str.lower` on a character list. -/
def pyLower (l : List Char) : List Char := l.map pyLowerChar

/-- Model of Python `str.lower` on a `String`. -/
def pyLowerS (s : String) : String := String.mk (pyLower s.data)

/-- Python truthiness of `os.environ.get(...)`: `None` and the empty string
are falsy, every other string is truthy. -/
def pyTruthy : Option String → Bool
  | none => false
  | some s => ¬ s.isEmpty

/-- Association-list lookup (Python dict read): first entry with the key. -/
def alookup {κ α : Type} [DecidableEq κ] : List (κ × α) → κ → Option α
  | [], _ => none
  | kv :: rest, k => if kv.1 = k then some kv.2 else alookup rest k

/-- Replace the value stored under a key, keeping its position (Python dict
write to an existing key). -/
def setVal {κ α : Type} [DecidableEq κ] (l : List (κ × α)) (k : κ) (v : α) :
    List (κ × α) :=
  l.map (fun kv => if kv.1 = k then (kv.1, v) else kv)

/-- Split a character list at newline characters, like iterating the lines of
a text-mode file (each line handed to the parser without its newline). -/
def splitOnNl : List Char → List (List Char)
  | [] => [[]]
  | c :: cs =>
    if c = '\n' then [] :: splitOnNl cs
    else
      match splitOnNl cs with
      | [] => [[c]]
      | l :: ls => (c :: l) :: ls

/-! ### JSON values and `KeeConfig.load_config` -/

/-- JSON documents, as produced by Python `json.load`.  Numbers are kept as
their literal text, which is enough for this development: no claim inspects a
numeric value. -/
inductive Json where
  | null : Json
  | bool (b : Bool) : Json
  | num (lit : String) : Json
  | str (s : String) : Json
  | arr (xs : List Json) : Json
  | obj (fields : List (String × Json)) : Json

/-- Outcome of opening and `json.load`-ing the state file: the file may be
missing, opening or reading it may fail with an `IOError`, its bytes may not
decode as UTF-8 (`UnicodeDecodeError`, raised when `json.load` reads the
text-mode file), its text may fail to parse (`json.JSONDecodeError`), or it
parses to a JSON document. -/
inductive ReadResult where
  | noFile : ReadResult
  | ioError : ReadResult
  | badEncoding : ReadResult
  | badJson : ReadResult
  | content (j : Json) : ReadResult

/-- Default registry state `{"accounts": {}, "current_account": None}`. -/
def defaultConfig : Json :=
  Json.obj [("accounts", Json.obj []), ("current_account", Json.null)]

/-- Exceptions that the embedded functions may let escape to their caller. -/
inductive PyExn where
  | osError : PyExn
  | unicodeDecodeError : PyExn
  deriving DecidableEq

/-- Model of `KeeConfig.load_config`: a missing file returns the default; a
`json.JSONDecodeError` or `IOError` is caught and returns the default; a
`UnicodeDecodeError` from non-UTF-8 file bytes is a `ValueError` but neither
a `json.JSONDecodeError` nor an `IOError`, so the `except` clause does not
catch it and it escapes; any successfully parsed document is returned
verbatim, with no schema check. -/
def load_config : ReadResult → Except PyExn Json
  | ReadResult.noFile => Except.ok defaultConfig
  | ReadResult.ioError => Except.ok defaultConfig
  | ReadResult.badEncoding => Except.error PyExn.unicodeDecodeError
  | ReadResult.badJson => Except.ok defaultConfig
  | ReadResult.content j => Except.ok j

/-! ### Registry state and the manager's operations

`KeeManager` operations are modelled over well-formed registry states (the
shape `add_account` writes and the other operations read): an insertion-ordered
association list of account records plus the optional current-account name. -/

/-- One account record of the registry (the six string fields written by
`add_account`). -/
structure Account where
  profile_name : String
  sso_start_url : String
  sso_region : String
  sso_account_id : String
  sso_role_name : String
  session_name : String
  deriving DecidableEq

/-- Registry state: Python dict `accounts` modelled as an insertion-ordered
association list, plus `current_account`. -/
structure Registry where
  accounts : List (String × Account)
  current_account : Option String
  deriving DecidableEq

/-- Environment of the spawned sub-shell, as set by `_start_subshell`. -/
structure SubshellEnv where
  aws_profile : String
  kee_current_account : String
  kee_active_profile : String
  deriving DecidableEq

/-- Relevant environment of the kee process itself. -/
structure SessionEnv where
  kee_active_profile : Option String
  kee_current_account : Option String
  deriving DecidableEq

/-- Externally visible effects of a manager operation, in program order. -/
inductive Event where
  | loadConfig (r : Registry) : Event
  | saveConfig (r : Registry) : Event
  | reformatAwsConfig : Event
  | confirmPrompt : Event
  | spawnSubshell (e : SubshellEnv) : Event
  | tryRemoveProfile (profile : String) : Event
  | warnManualCleanup : Event
  deriving DecidableEq

/-- Result of a top-level operation: the Python function either returns a
bool or lets an exception escape. -/
inductive Outcome where
  | ret (b : Bool) : Outcome
  | exn : Outcome
  deriving DecidableEq

/-- Result record of a manager operation: outcome, the registry state on disk
afterwards, and the trace of effects. -/
structure OpResult where
  outcome : Outcome
  disk : Registry
  events : List Event
  deriving DecidableEq

/-- Insert or overwrite a key in a Python dict (overwrite keeps the key's
position, a new key is appended). -/
def setAccount (l : List (String × Account)) (k : String) (v : Account) :
    List (String × Account) :=
  if (alookup l k).isSome then setVal l k v else l ++ [(k, v)]

/-- Model of Python `del accounts[name]`. -/
def delAccount (l : List (String × Account)) (k : String) :
    List (String × Account) :=
  l.filter (fun kv => ¬ kv.1 = k)

/-- Outcome of one `subprocess.run` invocation as observed by the caller:
normal exit with a code, `TimeoutExpired`, some other
`subprocess.SubprocessError`, or a launch failure (`FileNotFoundError` /
`OSError`, e.g. the `aws` executable is missing). -/
inductive SubprocOutcome where
  | exited (code : Int) : SubprocOutcome
  | timedOut : SubprocOutcome
  | subprocessFailed : SubprocOutcome
  | launchFailed : SubprocOutcome
  deriving DecidableEq

/-- Model of `KeeManager._check_credentials`: runs the identity probe and
returns whether it exited zero.  The `except` clause catches exactly
`subprocess.TimeoutExpired` and `subprocess.SubprocessError`; a launch failure
such as a missing executable raises `FileNotFoundError`, which is an `OSError`
and not a `SubprocessError`, so it escapes. -/
def check_credentials : SubprocOutcome → Except PyExn Bool
  | SubprocOutcome.exited code => Except.ok (code = 0)
  | SubprocOutcome.timedOut => Except.ok false
  | SubprocOutcome.subprocessFailed => Except.ok false
  | SubprocOutcome.launchFailed => Except.error PyExn.osError

/-- Profile metadata read back by `_read_profile_info`, abstracted to the
field values `add_account` extracts from the returned dict (after the
defaulting to `""` and `"unknown"` done there). -/
structure ProfileInfo where
  sso_start_url : String
  sso_region : String
  sso_account_id : String
  sso_role_name : String
  session_name : String
  deriving DecidableEq

/-- External inputs consumed by one `add_account` run. -/
structure AddOracle where
  ssoConfig : SubprocOutcome
  profileInfo : Option ProfileInfo
  checkCreds : Bool
  deriving DecidableEq

/-- Result of `add_account`: returned bool, disk state, event trace. -/
structure AddResult where
  ok : Bool
  disk : Registry
  events : List Event
  deriving DecidableEq

/-- Model of `KeeManager.add_account`: run `aws configure sso`; on nonzero
exit, timeout or an unexpected exception return `false` with nothing written;
otherwise reformat the AWS config file, read the profile back (empty dict
means failure), store the record into the registry under `account_name`
(overwriting any existing record) and save; the final credential probe only
affects printed feedback, not the return value. -/
def add_account (account_name : String) (orc : AddOracle) (disk : Registry) :
    AddResult :=
  match orc.ssoConfig with
  | SubprocOutcome.timedOut => ⟨false, disk, []⟩
  | SubprocOutcome.subprocessFailed => ⟨false, disk, []⟩
  | SubprocOutcome.launchFailed => ⟨false, disk, []⟩
  | SubprocOutcome.exited code =>
    if ¬ code = 0 then ⟨false, disk, []⟩
    else
      match orc.profileInfo with
      | none => ⟨false, disk, [Event.reformatAwsConfig]⟩
      | some pi =>
        let record : Account :=
          ⟨account_name, pi.sso_start_url, pi.sso_region, pi.sso_account_id,
            pi.sso_role_name, pi.session_name⟩
        let newCfg : Registry :=
          ⟨setAccount disk.accounts account_name record, disk.current_account⟩
        ⟨true, newCfg,
          [Event.reformatAwsConfig, Event.loadConfig disk,
            Event.saveConfig newCfg]⟩

/-- External inputs consumed by one `use_account` run. -/
structure UseOracle where
  checkCreds : Bool
  ssoLogin : Bool
  addAnswer : String
  useNowAnswer : String
  addOracle : AddOracle
  subshellInterrupted : Bool
  deriving DecidableEq

/-- Model of `KeeManager._start_subshell`: spawns the shell with
`AWS_PROFILE`, `KEE_CURRENT_ACCOUNT` and `KEE_ACTIVE_PROFILE=1` set; a
`KeyboardInterrupt` while waiting is caught and ignored, so the outcome of the
wait does not influence anything. -/
def start_subshell (account_name profile_name : String)
    (interrupted : Bool) : List Event :=
  match interrupted with
  | true => [Event.spawnSubshell ⟨profile_name, account_name, "1"⟩]
  | false => [Event.spawnSubshell ⟨profile_name, account_name, "1"⟩]

/-- Tail of `use_account` from the `accounts[account_name]` lookup on (the
Python code raises `KeyError` if the name is absent, which cannot happen on
the reachable paths): credential probe, optional SSO login, activation save,
sub-shell, deactivation save. -/
def useProceed (account_name : String) (orc : UseOracle)
    (config_data : Registry) (ev : List Event) : OpResult :=
  match alookup config_data.accounts account_name with
  | none => ⟨Outcome.exn, config_data, ev⟩
  | some info =>
    if ¬ orc.checkCreds ∧ ¬ orc.ssoLogin then
      ⟨Outcome.ret false, config_data, ev⟩
    else
      let activated : Registry := { config_data with current_account := some account_name }
      let deactivated : Registry := { activated with current_account := none }
      ⟨Outcome.ret true, deactivated,
        ev ++ [Event.saveConfig activated]
          ++ start_subshell account_name info.profile_name orc.subshellInterrupted
          ++ [Event.saveConfig deactivated]⟩

/-- Model of `KeeManager.use_account`.  Guard: a truthy `KEE_ACTIVE_PROFILE`
in the environment refuses immediately, before the registry file is even
loaded.  Unknown names offer to run `add_account` and then optionally chain
into the use flow after reloading the registry. -/
def use_account (account_name : String) (env : SessionEnv) (orc : UseOracle)
    (disk : Registry) : OpResult :=
  if pyTruthy env.kee_active_profile then ⟨Outcome.ret false, disk, []⟩
  else
    let ev := [Event.loadConfig disk]
    if (alookup disk.accounts account_name).isNone then
      if pyLowerS orc.addAnswer = "y" then
        let ar := add_account account_name orc.addOracle disk
        if ar.ok then
          if pyLowerS orc.useNowAnswer = "y" then
            useProceed account_name orc ar.disk
              (ev ++ ar.events ++ [Event.loadConfig ar.disk])
          else ⟨Outcome.ret true, ar.disk, ev ++ ar.events⟩
        else ⟨Outcome.ret false, ar.disk, ev ++ ar.events⟩
      else ⟨Outcome.ret false, disk, ev⟩
    else useProceed account_name orc disk ev

/-- External inputs consumed by one `remove_account` run. -/
structure RemoveOracle where
  confirmAnswer : String
  removeProfileRaises : Bool
  deriving DecidableEq

/-- Model of `KeeManager.remove_account`: unknown names return `false` with
no prompt; a confirmation answer whose `.lower()` is not `"y"` returns
`false` with nothing written; otherwise the record is deleted, the
current-account pointer is cleared if it referenced this name, the registry is
saved, and the AWS profile section removal is attempted — if that raises, a
warning advising manual cleanup is printed and the operation still returns
`true`. -/
def remove_account (account_name : String) (orc : RemoveOracle)
    (disk : Registry) : OpResult :=
  match alookup disk.accounts account_name with
  | none => ⟨Outcome.ret false, disk, [Event.loadConfig disk]⟩
  | some info =>
    if ¬ pyLowerS orc.confirmAnswer = "y" then
      ⟨Outcome.ret false, disk, [Event.loadConfig disk, Event.confirmPrompt]⟩
    else
      let newCfg : Registry :=
        ⟨delAccount disk.accounts account_name,
          if disk.current_account = some account_name then none
          else disk.current_account⟩
      let ev :=
        [Event.loadConfig disk, Event.confirmPrompt, Event.saveConfig newCfg,
          Event.tryRemoveProfile info.profile_name]
      if orc.removeProfileRaises then
        ⟨Outcome.ret true, newCfg, ev ++ [Event.warnManualCleanup]⟩
      else ⟨Outcome.ret true, newCfg, ev⟩

/-! ### Model of `configparser.ConfigParser` with its default settings

`AWSConfigManager` drives a default-constructed `ConfigParser`: strict mode,
delimiters `=` and `:`, full-line comment prefixes `#` and `;`, no inline
comments, `empty_lines_in_values`, option names lower-cased, a special
`DEFAULT` section whose entries are folded into every section by `items()`,
and `BasicInterpolation` applied by `items()`.  Errors short-circuit here:
Python's `read` collects some `ParsingError`s and raises at the end of the
read, but a raise from `read` always aborts the caller before any write, so
only the fact of an error is observable. -/

/-- Errors raised by the configparser model (`read`, `items` and
interpolation). -/
inductive IniErr where
  | missingSectionHeader : IniErr
  | duplicateSection : IniErr
  | duplicateOption : IniErr
  | badOptionLine : IniErr
  | badPercent : IniErr
  | missingRefOption : IniErr
  | depthExceeded : IniErr
  deriving DecidableEq

/-- Decidable equality for `Except`, used to evaluate concrete runs. -/
instance {ε α : Type} [DecidableEq ε] [DecidableEq α] :
    DecidableEq (Except ε α) := fun a b =>
  match a, b with
  | Except.ok x, Except.ok y =>
    if h : x = y then isTrue (by rw [h]) else isFalse (by simp [h])
  | Except.ok _, Except.error _ => isFalse (by simp)
  | Except.error _, Except.ok _ => isFalse (by simp)
  | Except.error x, Except.error y =>
    if h : x = y then isTrue (by rw [h]) else isFalse (by simp [h])

/-- Raw option table built during `read`: each option maps to the list of
(stripped) value lines collected for it, joined only when the read finishes. -/
abbrev RawOpts := List (List Char × List (List Char))

/-- Which dict the parser's `cursect` points at. -/
inductive CurSect where
  | noSect : CurSect
  | defSect : CurSect
  | inSect (name : List Char) : CurSect
  deriving DecidableEq

/-- State of the `ConfigParser._read` loop. -/
structure PState where
  defaults : RawOpts
  sections : List (List Char × RawOpts)
  cur : CurSect
  optname : Option (List Char)
  indent : Nat
  deriving DecidableEq

/-- Initial `_read` state. -/
def initPState : PState := ⟨[], [], CurSect.noSect, none, 0⟩

/-- Option table of the current section. -/
def curOpts (st : PState) : RawOpts :=
  match st.cur with
  | CurSect.noSect => []
  | CurSect.defSect => st.defaults
  | CurSect.inSect n => (alookup st.sections n).getD []

/-- Store a new option table into the current section. -/
def setCurOpts (st : PState) (o : RawOpts) : PState :=
  match st.cur with
  | CurSect.noSect => st
  | CurSect.defSect => { st with defaults := o }
  | CurSect.inSect n => { st with sections := setVal st.sections n o }

/-- Append one more value line to the option named `k` (Python
`cursect[optname].append(...)`). -/
def appendOptLine (o : RawOpts) (k : List Char) (line : List Char) : RawOpts :=
  o.map (fun kv => if kv.1 = k then (kv.1, kv.2 ++ [line]) else kv)

/-- Test whether a line is a full-line comment: its stripped form starts with
`#` or `;`. -/
def lineIsComment (l : List Char) : Bool :=
  match pyStrip l with
  | [] => false
  | c :: _ => c = '#' || c = ';'

/-- Match the section-header regex `\[(?P<header>[^]]+)\]` against a stripped
line (`re.match`, so trailing text after the bracket is ignored). -/
def matchSectionHeader : List Char → Option (List Char)
  | [] => none
  | c :: rest =>
    if c = '[' ∧ rest.contains ']' then
      if rest.takeWhile (fun x => ¬ x = ']') = [] then none
      else some (rest.takeWhile (fun x => ¬ x = ']'))
    else none

/-- Split a stripped line at the first `=` or `:` delimiter, as the option
regex does; `none` when the line has no delimiter. -/
def splitAtDelim : List Char → Option (List Char × List Char)
  | [] => none
  | c :: cs =>
    if c = '=' ∨ c = ':' then some ([], cs)
    else
      match splitAtDelim cs with
      | none => none
      | some p => some (c :: p.1, p.2)

/-- One iteration of the `ConfigParser._read` line loop. -/
def parseStep (st : PState) (l : List Char) : Except IniErr PState :=
  let isC := lineIsComment l
  let value := if isC then [] else pyStrip l
  if value = [] then
    if ¬ isC ∧ ¬ st.cur = CurSect.noSect ∧ st.optname.isSome then
      match st.optname with
      | some k => Except.ok (setCurOpts st (appendOptLine (curOpts st) k []))
      | none => Except.ok st
    else Except.ok st
  else
    let curIndent := (l.takeWhile isPySpace).length
    if ¬ st.cur = CurSect.noSect ∧ st.optname.isSome ∧ st.indent < curIndent then
      match st.optname with
      | some k => Except.ok (setCurOpts st (appendOptLine (curOpts st) k value))
      | none => Except.ok st
    else
      let st1 := { st with indent := curIndent }
      match matchSectionHeader value with
      | some h =>
        if h = "DEFAULT".data then
          Except.ok { st1 with cur := CurSect.defSect, optname := none }
        else if (alookup st1.sections h).isSome then
          Except.error IniErr.duplicateSection
        else
          Except.ok
            { st1 with
                sections := st1.sections ++ [(h, [])]
                cur := CurSect.inSect h
                optname := none }
      | none =>
        if st1.cur = CurSect.noSect then Except.error IniErr.missingSectionHeader
        else
          match splitAtDelim value with
          | none => Except.error IniErr.badOptionLine
          | some p =>
            let key := pyLower (stripRight p.1)
            if key = [] then Except.error IniErr.badOptionLine
            else if (alookup (curOpts st1) key).isSome then
              Except.error IniErr.duplicateOption
            else
              let st2 := setCurOpts st1 (curOpts st1 ++ [(key, [pyStrip p.2])])
              Except.ok { st2 with optname := some key }

/-- Run the `_read` loop over a list of lines. -/
def parseLinesGo : PState → List (List Char) → Except IniErr PState
  | st, [] => Except.ok st
  | st, l :: ls =>
    match parseStep st l with
    | Except.error e => Except.error e
    | Except.ok st2 => parseLinesGo st2 ls

/-- Drop trailing blank value lines (the effect of the final `rstrip` in
`_join_multiline_values`, given that each stored line is itself stripped). -/
def dropTrailingBlanks (ls : List (List Char)) : List (List Char) :=
  (ls.reverse.dropWhile (fun l => l = [])).reverse

/-- Join value lines with newlines. -/
def intercalateNl : List (List Char) → List Char
  | [] => []
  | [l] => l
  | l :: ls => l ++ '\n' :: intercalateNl ls

/-- Model of `_join_multiline_values` for one option. -/
def joinValue (ls : List (List Char)) : List Char :=
  intercalateNl (dropTrailingBlanks ls)

/-- Join all options of one raw table. -/
def joinOpts (o : RawOpts) : List (List Char × List Char) :=
  o.map (fun kv => (kv.1, joinValue kv.2))

/-- Parsed configuration: the `DEFAULT` entries and the ordinary sections, in
insertion order, with joined values. -/
structure IniDoc where
  defaults : List (List Char × List Char)
  sections : List (List Char × List (List Char × List Char))
  deriving DecidableEq

/-- Model of `ConfigParser.read` on the full text of an existing file. -/
def parseIni (content : List Char) : Except IniErr IniDoc :=
  match parseLinesGo initPState (splitOnNl content) with
  | Except.error e => Except.error e
  | Except.ok st =>
    Except.ok ⟨joinOpts st.defaults,
      st.sections.map (fun s => (s.1, joinOpts s.2))⟩

/-- Lexical pieces of a value under `BasicInterpolation`: plain characters,
an escaped percent (`%%`), and a reference `%(name)s`. -/
inductive Tok where
  | ch (c : Char) : Tok
  | pct : Tok
  | ref (name : List Char) : Tok
  deriving DecidableEq

/-- Scanner mode while lexing a value. -/
inductive TokMode where
  | plain : TokMode
  | afterPct : TokMode
  | inRef (acc : List Char) : TokMode
  deriving DecidableEq

/-- Lex a value for `BasicInterpolation`: `%%` escapes, `%(name)s` references
(the name is any nonempty run without `)`), and any other use of `%` is an
`InterpolationSyntaxError`.  Python discovers these errors while scanning
left to right interleaved with resolution; separating the scan only changes
which `IniErr` constructor is reported when a value has several errors, never
whether an error occurs. -/
def tokGo : TokMode → List Char → Except IniErr (List Tok)
  | TokMode.plain, [] => Except.ok []
  | TokMode.plain, c :: rest =>
    if c = '%' then tokGo TokMode.afterPct rest
    else
      match tokGo TokMode.plain rest with
      | Except.error e => Except.error e
      | Except.ok ts => Except.ok (Tok.ch c :: ts)
  | TokMode.afterPct, [] => Except.error IniErr.badPercent
  | TokMode.afterPct, c :: rest =>
    if c = '%' then
      match tokGo TokMode.plain rest with
      | Except.error e => Except.error e
      | Except.ok ts => Except.ok (Tok.pct :: ts)
    else if c = '(' then tokGo (TokMode.inRef []) rest
    else Except.error IniErr.badPercent
  | TokMode.inRef _, [] => Except.error IniErr.badPercent
  | TokMode.inRef acc, c :: rest =>
    if c = ')' then
      if acc = [] then Except.error IniErr.badPercent
      else
        match rest with
        | 's' :: rest2 =>
          match tokGo TokMode.plain rest2 with
          | Except.error e => Except.error e
          | Except.ok ts => Except.ok (Tok.ref acc.reverse :: ts)
        | _ => Except.error IniErr.badPercent
    else tokGo (TokMode.inRef (c :: acc)) rest

/-- Resolve lexed tokens: references are looked up in the merged map (after
`optionxform`), and a referenced value containing `%` is interpolated one
depth level further via `recur`. -/
def interpToks (m : List (List Char × List Char))
    (recur : List Char → Except IniErr (List Char)) :
    List Tok → Except IniErr (List Char)
  | [] => Except.ok []
  | Tok.ch c :: ts =>
    match interpToks m recur ts with
    | Except.error e => Except.error e
    | Except.ok t => Except.ok (c :: t)
  | Tok.pct :: ts =>
    match interpToks m recur ts with
    | Except.error e => Except.error e
    | Except.ok t => Except.ok ('%' :: t)
  | Tok.ref nm :: ts =>
    match alookup m (pyLower nm) with
    | none => Except.error IniErr.missingRefOption
    | some v =>
      let ev := if v.contains '%' then recur v else Except.ok v
      match ev, interpToks m recur ts with
      | Except.ok evv, Except.ok t => Except.ok (evv ++ t)
      | Except.error e, _ => Except.error e
      | _, Except.error e => Except.error e

/-- Depth-limited interpolation of one value: Python raises
`InterpolationDepthError` once the nesting depth exceeds
`MAX_INTERPOLATION_DEPTH = 10`. -/
def interpDepth (m : List (List Char × List Char)) :
    Nat → List Char → Except IniErr (List Char)
  | 0, _ => Except.error IniErr.depthExceeded
  | b + 1, cs =>
    match tokGo TokMode.plain cs with
    | Except.error e => Except.error e
    | Except.ok ts => interpToks m (interpDepth m b) ts

/-- Interpolate one stored value (entry depth 1, so ten levels available). -/
def interpolateValue (m : List (List Char × List Char)) (v : List Char) :
    Except IniErr (List Char) :=
  interpDepth m 10 v

/-- Model of Python `dict.update`: existing keys are overwritten in place,
new keys are appended. -/
def dictUpdate (d s : List (List Char × List Char)) :
    List (List Char × List Char) :=
  s.foldl
    (fun acc kv =>
      if (alookup acc kv.1).isSome then setVal acc kv.1 kv.2 else acc ++ [kv])
    d

/-- Interpolate every value of a merged table in order, stopping at the first
error (the `items()` list comprehension). -/
def interpItems (m : List (List Char × List Char)) :
    List (List Char × List Char) →
      Except IniErr (List (List Char × List Char))
  | [] => Except.ok []
  | kv :: rest =>
    match interpolateValue m kv.2 with
    | Except.error e => Except.error e
    | Except.ok v =>
      match interpItems m rest with
      | Except.error e => Except.error e
      | Except.ok vs => Except.ok ((kv.1, v) :: vs)

/-- Model of `ConfigParser.items(section)`: merge the `DEFAULT` entries with
the section's own entries and interpolate every value against the merged
map. -/
def itemsOf (defaults opts : List (List Char × List Char)) :
    Except IniErr (List (List Char × List Char)) :=
  interpItems (dictUpdate defaults opts) (dictUpdate defaults opts)

/-- Text written for one `key = value` line. -/
def itemLine (kv : List Char × List Char) : List Char :=
  kv.1 ++ " = ".data ++ kv.2

/-- Result of running `_write_config_with_formatting`: the text the file
holds afterwards and whether an exception escaped mid-write (the `with` block
closes and flushes the file even then, leaving the partial text). -/
structure WriteOut where
  text : List Char
  raised : Bool
  deriving DecidableEq

/-- Model of `AWSConfigManager._write_config_with_formatting`: for each
section write `[name]`, then one `key = value` line per `items()` entry, then
one blank line.  `items()` is evaluated after the header is written; an
interpolation error there truncates the file at that point. -/
def write_config_with_formatting
    (defaults : List (List Char × List Char)) :
    List (List Char × List (List Char × List Char)) → List Char → WriteOut
  | [], acc => ⟨acc, false⟩
  | s :: rest, acc =>
    let acc1 := acc ++ '[' :: s.1 ++ [']', '\n']
    match itemsOf defaults s.2 with
    | Except.error _ => ⟨acc1, true⟩
    | Except.ok its =>
      write_config_with_formatting defaults rest
        (acc1 ++ (its.map (fun kv => itemLine kv ++ ['\n'])).flatten ++ ['\n'])

/-- Result of one `AWSConfigManager` file operation: the credentials file
content afterwards (`none` when the file does not exist) and whether an
exception propagated to the caller. -/
structure FileOp where
  file : Option (List Char)
  raised : Bool
  deriving DecidableEq

/-- Model of `AWSConfigManager.reformat_config_file`: no-op when the file is
missing; a `read` error propagates with the file untouched; otherwise the
whole file is rewritten with normalized formatting. -/
def reformat_config_file : Option (List Char) → FileOp
  | none => ⟨none, false⟩
  | some c =>
    match parseIni c with
    | Except.error _ => ⟨some c, true⟩
    | Except.ok doc =>
      let w := write_config_with_formatting doc.defaults doc.sections []
      ⟨some w.text, w.raised⟩

/-- Section name targeted by `remove_profile`. -/
def sectionNameFor (profile : List Char) : List Char :=
  if profile = "default".data then "default".data
  else "profile ".data ++ profile

/-- Model of `AWSConfigManager.remove_profile`: no-op when the file is
missing; a `read` error propagates with the file untouched; when the section
`[profile <name>]` exists it is removed and the file rewritten, otherwise
nothing is written. -/
def remove_profile (file : Option (List Char)) (profile : List Char) : FileOp :=
  match file with
  | none => ⟨none, false⟩
  | some c =>
    match parseIni c with
    | Except.error _ => ⟨some c, true⟩
    | Except.ok doc =>
      let sn := sectionNameFor profile
      if (alookup doc.sections sn).isSome then
        let w := write_config_with_formatting doc.defaults
          (doc.sections.filter (fun s => ¬ s.1 = sn)) []
        ⟨some w.text, w.raised⟩
      else ⟨some c, false⟩

/-! ### Helper lemmas about the registry operations -/

/-- Helper: the sub-shell trace is the same whatever happened inside the
wait, because the interrupt is swallowed. -/
theorem start_subshell_eq (a p : String) (i : Bool) :
    start_subshell a p i = [Event.spawnSubshell ⟨p, a, "1"⟩] := by
  cases i <;> rfl

/-- Helper: lookup after an in-place value replacement. -/
theorem alookup_setVal {κ α : Type} [DecidableEq κ]
    (l : List (κ × α)) (k : κ) (v : α) (n : κ) :
    alookup (setVal l k v) n =
      if n = k then (if (alookup l k).isSome then some v else none)
      else alookup l n := by
  induction l with
  | nil => by_cases h : n = k <;> simp [alookup, setVal, h]
  | cons kv rest ih =>
    by_cases h1 : kv.1 = k
    · by_cases h2 : n = k
      · simp_all [alookup, setVal]
      · have h2k : ¬ k = n := fun h => h2 h.symm
        simp_all [alookup, setVal]
    · by_cases h2 : kv.1 = n
      · have h3 : ¬ n = k := fun hnk => h1 (h2.trans hnk)
        simp [alookup, setVal, h1, h2, h3]
      · simp [alookup, setVal, h1, h2] at ih ⊢
        exact ih

/-- Helper: lookup after appending a fresh key. -/
theorem alookup_append_single {κ α : Type} [DecidableEq κ]
    (l : List (κ × α)) (k : κ) (v : α) (n : κ)
    (hk : alookup l k = none) :
    alookup (l ++ [(k, v)]) n = if n = k then some v else alookup l n := by
  induction l with
  | nil =>
    by_cases h : n = k
    · simp [alookup, h]
    · have hkn : ¬ k = n := fun hh => h hh.symm
      simp [alookup, h, hkn]
  | cons kv rest ih =>
    by_cases h1 : kv.1 = k
    · simp [alookup, h1] at hk
    · simp only [alookup, h1, if_false] at hk
      by_cases h2 : kv.1 = n
      · have h3 : ¬ n = k := fun hnk => h1 (h2.trans hnk)
        simp [alookup, h2, h3]
      · simp only [List.cons_append, alookup, h2, if_false]
        exact ih hk

/-- Helper: lookup after a dict insert/overwrite. -/
theorem lookup_setAccount (l : List (String × Account)) (k : String)
    (v : Account) (n : String) :
    alookup (setAccount l k v) n = if n = k then some v else alookup l n := by
  unfold setAccount
  cases hk : (alookup l k).isSome with
  | true =>
    rw [if_pos (by simp [hk])]
    rw [alookup_setVal]
    by_cases h : n = k <;> simp [h, hk]
  | false =>
    rw [if_neg (by simp [hk])]
    exact alookup_append_single l k v n (by simpa using hk)

/-- Helper: lookup after a dict delete. -/
theorem lookup_delAccount (l : List (String × Account)) (k n : String) :
    alookup (delAccount l k) n = if n = k then none else alookup l n := by
  unfold delAccount
  induction l with
  | nil => by_cases h : n = k <;> simp [alookup, h]
  | cons kv rest ih =>
    by_cases h1 : kv.1 = k
    · by_cases h2 : n = k
      · simp_all [alookup, List.filter_cons]
      · have h3 : ¬ kv.1 = n := fun hh => h2 (hh.symm.trans h1)
        simp_all [alookup, List.filter_cons]
    · by_cases h2 : kv.1 = n
      · have h3 : ¬ n = k := fun hnk => h1 (h2.trans hnk)
        simp_all [alookup, List.filter_cons]
      · simp_all [alookup, List.filter_cons]

/-- Registry invariant: a set `current_account` references an existing key of
`accounts`. -/
def Inv (r : Registry) : Prop :=
  match r.current_account with
  | none => True
  | some n => (alookup r.accounts n).isSome = true

/-- Helper: the invariant survives a dict insert. -/
theorem Inv_setAccount (reg : Registry) (k : String) (v : Account)
    (h : Inv reg) :
    Inv ⟨setAccount reg.accounts k v, reg.current_account⟩ := by
  unfold Inv at h ⊢
  cases hc : reg.current_account with
  | none => trivial
  | some n =>
    rw [hc] at h
    simp only [lookup_setAccount]
    by_cases hn : n = k <;> simp [hn, h]

/-- Helper: every registry state saved by `add_account` has the stored record
inserted and the `current_account` pointer untouched, so the invariant is
preserved. -/
theorem add_account_save_inv (an : String) (aorc : AddOracle)
    (reg : Registry) (hInv : Inv reg) :
    ∀ r, Event.saveConfig r ∈ (add_account an aorc reg).events →
      Inv r ∧ r.current_account = reg.current_account := by
  intro r hr
  obtain ⟨sso, pinfo, chk⟩ := aorc
  cases sso with
  | timedOut => simp [add_account] at hr
  | subprocessFailed => simp [add_account] at hr
  | launchFailed => simp [add_account] at hr
  | exited code =>
    by_cases hc : code = 0
    · cases pinfo with
      | none => simp [add_account, hc] at hr
      | some pi =>
        simp [add_account, hc] at hr
        subst hr
        exact ⟨Inv_setAccount reg an _ hInv, rfl⟩
    · simp [add_account, hc] at hr

/-- Helper: when `add_account` reports success, the account is present in the
saved registry and the pointer is untouched. -/
theorem add_account_ok_lookup (an : String) (aorc : AddOracle)
    (reg : Registry) (hok : (add_account an aorc reg).ok = true) :
    (alookup (add_account an aorc reg).disk.accounts an).isSome = true ∧
      (add_account an aorc reg).disk.current_account = reg.current_account := by
  obtain ⟨sso, pinfo, chk⟩ := aorc
  cases sso with
  | timedOut => simp [add_account] at hok
  | subprocessFailed => simp [add_account] at hok
  | launchFailed => simp [add_account] at hok
  | exited code =>
    by_cases hc : code = 0
    · cases pinfo with
      | none => simp [add_account, hc] at hok
      | some pi =>
        constructor
        · simp [add_account, hc, lookup_setAccount]
        · simp [add_account, hc]
    · simp [add_account, hc] at hok

/-- Helper: every registry state saved inside `useProceed` satisfies the
invariant, provided the states saved by the prefix trace do. -/
theorem useProceed_save_inv (an : String) (uorc : UseOracle) (cfg : Registry)
    (ev : List Event)
    (hev : ∀ r, Event.saveConfig r ∈ ev → Inv r) :
    ∀ r, Event.saveConfig r ∈ (useProceed an uorc cfg ev).events → Inv r := by
  intro r hr
  unfold useProceed at hr
  cases hl : alookup cfg.accounts an with
  | none =>
    rw [hl] at hr
    exact hev r hr
  | some info =>
    rw [hl] at hr
    dsimp only at hr
    by_cases hcr : ¬ uorc.checkCreds = true ∧ ¬ uorc.ssoLogin = true
    · rw [if_pos hcr] at hr
      exact hev r hr
    · rw [if_neg hcr] at hr
      simp only [start_subshell_eq] at hr
      simp at hr
      rcases hr with hr | hr | hr
      · exact hev r hr
      · subst hr
        unfold Inv
        simp [hl]
      · subst hr
        unfold Inv
        simp

/-- Helper: the events of `useProceed` on its successful path: the
activation save, the sub-shell spawn, then the teardown save clearing the
pointer, appended to the prefix trace in that order. -/
theorem useProceed_events_success (an : String) (uorc : UseOracle)
    (cfg : Registry) (ev : List Event) (info : Account)
    (hl : alookup cfg.accounts an = some info)
    (hcr : ¬ (¬ uorc.checkCreds = true ∧ ¬ uorc.ssoLogin = true)) :
    (useProceed an uorc cfg ev).events =
      ev ++ [Event.saveConfig ⟨cfg.accounts, some an⟩,
        Event.spawnSubshell ⟨info.profile_name, an, "1"⟩,
        Event.saveConfig ⟨cfg.accounts, none⟩] := by
  unfold useProceed
  rw [hl]
  dsimp only
  rw [if_neg hcr]
  simp only [start_subshell_eq]
  simp

/-- Helper: classification of the registry states saved by `useProceed`: a
save is either inherited from the prefix trace, or the activation save
pointing at the account being used, or the teardown save — the pointer
cleared, emitted immediately after the sub-shell spawn as the final two
events of the trace. -/
theorem useProceed_saves (an : String) (uorc : UseOracle) (cfg : Registry)
    (ev : List Event) (r : Registry)
    (hr : Event.saveConfig r ∈ (useProceed an uorc cfg ev).events) :
    Event.saveConfig r ∈ ev ∨
    r.current_account = some an ∨
    (r.current_account = none ∧ ∃ e pfx,
      (useProceed an uorc cfg ev).events =
        pfx ++ [Event.spawnSubshell e, Event.saveConfig r]) := by
  unfold useProceed at hr
  cases hl : alookup cfg.accounts an with
  | none =>
    rw [hl] at hr
    exact Or.inl hr
  | some info =>
    rw [hl] at hr
    dsimp only at hr
    by_cases hcr : ¬ uorc.checkCreds = true ∧ ¬ uorc.ssoLogin = true
    · rw [if_pos hcr] at hr
      exact Or.inl hr
    · rw [if_neg hcr] at hr
      simp only [start_subshell_eq] at hr
      simp at hr
      rcases hr with hr | hr | hr
      · exact Or.inl hr
      · subst hr
        exact Or.inr (Or.inl rfl)
      · subst hr
        refine Or.inr (Or.inr ⟨rfl, ⟨info.profile_name, an, "1"⟩,
          ev ++ [Event.saveConfig ⟨cfg.accounts, some an⟩], ?_⟩)
        rw [useProceed_events_success an uorc cfg ev info hl hcr]
        simp

/-- Helper: every registry state saved by `use_account` satisfies the
invariant, given the loaded state did. -/
theorem use_account_save_inv (an : String) (env : SessionEnv)
    (uorc : UseOracle) (reg : Registry) (hInv : Inv reg) :
    ∀ r, Event.saveConfig r ∈ (use_account an env uorc reg).events →
      Inv r := by
  intro r hr
  unfold use_account at hr
  by_cases hm : pyTruthy env.kee_active_profile = true
  · rw [hm] at hr
    simp at hr
  · rw [if_neg (by simp_all)] at hr
    by_cases hl : (alookup reg.accounts an).isNone = true
    · rw [if_pos hl] at hr
      by_cases ha : pyLowerS uorc.addAnswer = "y"
      · rw [if_pos ha] at hr
        by_cases hok : (add_account an uorc.addOracle reg).ok = true
        · rw [if_pos hok] at hr
          by_cases hu : pyLowerS uorc.useNowAnswer = "y"
          · rw [if_pos hu] at hr
            refine useProceed_save_inv an uorc _ _ ?_ r hr
            intro r2 hr2
            simp at hr2
            exact (add_account_save_inv an uorc.addOracle reg hInv r2 hr2).1
          · rw [if_neg hu] at hr
            simp at hr
            exact (add_account_save_inv an uorc.addOracle reg hInv r hr).1
        · rw [if_neg hok] at hr
          simp at hr
          exact (add_account_save_inv an uorc.addOracle reg hInv r hr).1
      · rw [if_neg ha] at hr
        simp at hr
    · rw [if_neg hl] at hr
      refine useProceed_save_inv an uorc reg _ ?_ r hr
      intro r2 hr2
      simp at hr2

/-- Helper: every registry state saved by `use_account` either keeps the
pointer of the loaded state, or is the activation save pointing at the used
account, or is the teardown save: the pointer cleared, written immediately
after the sub-shell spawn as the final event of the run. -/
theorem use_account_save_shape (an : String) (env : SessionEnv)
    (uorc : UseOracle) (reg : Registry) (hInv : Inv reg) :
    ∀ r, Event.saveConfig r ∈ (use_account an env uorc reg).events →
      r.current_account = reg.current_account ∨
      r.current_account = some an ∨
      (r.current_account = none ∧ ∃ e pfx,
        (use_account an env uorc reg).events =
          pfx ++ [Event.spawnSubshell e, Event.saveConfig r]) := by
  intro r hr
  unfold use_account at hr ⊢
  by_cases hm : pyTruthy env.kee_active_profile = true
  · rw [hm] at hr
    simp at hr
  · rw [if_neg (by simp_all)] at hr ⊢
    by_cases hl : (alookup reg.accounts an).isNone = true
    · rw [if_pos hl] at hr ⊢
      by_cases ha : pyLowerS uorc.addAnswer = "y"
      · rw [if_pos ha] at hr ⊢
        by_cases hok : (add_account an uorc.addOracle reg).ok = true
        · rw [if_pos hok] at hr ⊢
          by_cases hu : pyLowerS uorc.useNowAnswer = "y"
          · rw [if_pos hu] at hr ⊢
            rcases useProceed_saves an uorc _ _ r hr with h | h | h
            · simp at h
              exact Or.inl
                ((add_account_save_inv an uorc.addOracle reg hInv r h).2)
            · exact Or.inr (Or.inl h)
            · exact Or.inr (Or.inr h)
          · rw [if_neg hu] at hr
            simp at hr
            exact Or.inl
              ((add_account_save_inv an uorc.addOracle reg hInv r hr).2)
        · rw [if_neg hok] at hr
          simp at hr
          exact Or.inl
            ((add_account_save_inv an uorc.addOracle reg hInv r hr).2)
      · rw [if_neg ha] at hr
        simp at hr
    · rw [if_neg hl] at hr ⊢
      rcases useProceed_saves an uorc reg _ r hr with h | h | h
      · simp at h
      · exact Or.inr (Or.inl h)
      · exact Or.inr (Or.inr h)

/-! ### C1, C10: `load_config` -/

/-- C1 counterexample: the claim states that malformed content never raises
to the caller; but a state file whose bytes are not valid UTF-8 makes
`json.load` raise `UnicodeDecodeError`, which
`except (json.JSONDecodeError, IOError)` does not catch, so `load_config`
raises instead of returning the default. -/
theorem load_config_unicode_cex :
    load_config ReadResult.badEncoding =
      Except.error PyExn.unicodeDecodeError ∧
    load_config ReadResult.badEncoding ≠ Except.ok defaultConfig :=
  ⟨rfl, fun h => Except.noConfusion h⟩

/-- C1 amended: a missing state file, a content that fails to parse
(`json.JSONDecodeError`) and a read failing with an `IOError` all yield the
empty default `{accounts: {}, current_account: None}` without raising; but a
file whose bytes do not decode as UTF-8 raises `UnicodeDecodeError` to the
caller, uncaught by the `except` clause. -/
theorem load_config_failures_default :
    load_config ReadResult.noFile = Except.ok defaultConfig ∧
    load_config ReadResult.ioError = Except.ok defaultConfig ∧
    load_config ReadResult.badJson = Except.ok defaultConfig ∧
    load_config ReadResult.badEncoding =
      Except.error PyExn.unicodeDecodeError ∧
    defaultConfig =
      Json.obj [("accounts", Json.obj []), ("current_account", Json.null)] :=
  ⟨rfl, rfl, rfl, rfl, rfl⟩

/-- C10: `load_config` performs no schema validation: every successfully
parsed JSON document is returned verbatim, including non-objects such as an
array or a string, which are not replaced by the default. -/
theorem load_config_no_validation :
    (∀ j : Json, load_config (ReadResult.content j) = Except.ok j) ∧
    load_config (ReadResult.content (Json.arr [])) =
      Except.ok (Json.arr []) ∧
    Json.arr [] ≠ defaultConfig ∧
    load_config (ReadResult.content (Json.str "oops")) =
      Except.ok (Json.str "oops") ∧
    Json.str "oops" ≠ defaultConfig :=
  ⟨fun _ => rfl, rfl, fun h => Json.noConfusion h, rfl,
    fun h => Json.noConfusion h⟩

/-! ### C7: `_check_credentials` -/

/-- C7 counterexample: the claim states that a failure to launch the
subprocess at all makes `check_credentials` return `false` and never raise;
in fact a missing executable raises `FileNotFoundError`, which the
`except (TimeoutExpired, SubprocessError)` clause does not catch, so the call
does not return `false`. -/
theorem check_credentials_launch_cex :
    check_credentials SubprocOutcome.launchFailed ≠ Except.ok false ∧
    check_credentials SubprocOutcome.launchFailed =
      Except.error PyExn.osError :=
  ⟨fun h => Except.noConfusion h, rfl⟩

/-- C7 amended: `check_credentials` returns `true` exactly when the probe
exits zero; a non-zero exit, a timeout and any other
`subprocess.SubprocessError` uniformly return `false` without raising; but a
launch failure (`FileNotFoundError`/`OSError`) propagates to the caller. -/
theorem check_credentials_behavior :
    (∀ code : Int,
      check_credentials (SubprocOutcome.exited code) =
        Except.ok (decide (code = 0))) ∧
    check_credentials SubprocOutcome.timedOut = Except.ok false ∧
    check_credentials SubprocOutcome.subprocessFailed = Except.ok false ∧
    check_credentials SubprocOutcome.launchFailed =
      Except.error PyExn.osError :=
  ⟨fun _ => rfl, rfl, rfl, rfl⟩

/-! ### C3: the nested-session guard of `use_account` -/

/-- Concrete account record whose stored profile name differs from its
registry key. -/
def acctProfB : Account := ⟨"b", "", "", "", "", ""⟩

/-- Concrete registry holding one account named `a`. -/
def regOneA : Registry := ⟨[("a", acctProfB)], none⟩

/-- Concrete oracle: credentials probe succeeds, every prompt declined. -/
def orcPlain : UseOracle :=
  ⟨true, false, "n", "n", ⟨SubprocOutcome.exited 1, none, false⟩, false⟩

/-- C3 counterexample: the claim states that whenever the active-session
marker is present in the environment, `use_account` returns `false` with the
registry untouched; but the guard tests Python truthiness, so a marker that
is present with the empty value is ignored: the run proceeds, writes the
registry twice and returns `true`. -/
theorem use_account_empty_marker_cex :
    (use_account "a" ⟨some "", none⟩ orcPlain regOneA).outcome =
        Outcome.ret true ∧
    Event.saveConfig ⟨[("a", acctProfB)], some "a"⟩ ∈
      (use_account "a" ⟨some "", none⟩ orcPlain regOneA).events := by
  constructor
  · rfl
  · decide

/-- C3 amended: when the active-session marker is present with a truthy
(non-empty) value, `use_account` returns `false` immediately: the registry
file is neither loaded nor written and no other effect happens. -/
theorem use_account_marker_guard (an : String) (env : SessionEnv)
    (orc : UseOracle) (reg : Registry)
    (h : pyTruthy env.kee_active_profile = true) :
    use_account an env orc reg = ⟨Outcome.ret false, reg, []⟩ := by
  unfold use_account
  rw [h]
  simp

/-- C3 witness: the amended guard theorem applied at a concrete input. -/
theorem use_account_marker_guard_witness :
    pyTruthy (some "1") = true ∧
    use_account "a" ⟨some "1", none⟩ orcPlain regOneA =
      ⟨Outcome.ret false, regOneA, []⟩ :=
  ⟨by decide, use_account_marker_guard "a" ⟨some "1", none⟩ orcPlain regOneA
    (by decide)⟩

/-! ### C2: the `use_account` session lifecycle -/

/-- C2 counterexample: the claim states that for every registry whose
accounts contain the name `a`, the spawned sub-shell's environment selects
profile `a`; but the environment selects the record's stored `profile_name`,
which need not equal the account name: here it is `b`. -/
theorem use_account_profile_cex :
    Event.spawnSubshell ⟨"b", "a", "1"⟩ ∈
        (use_account "a" ⟨none, none⟩ orcPlain regOneA).events ∧
    (∀ e : SubshellEnv,
      Event.spawnSubshell e ∈
          (use_account "a" ⟨none, none⟩ orcPlain regOneA).events →
        e.aws_profile = "b") ∧
    ("b" : String) ≠ "a" := by
  refine ⟨by decide, ?_, by decide⟩
  intro e he
  have : (use_account "a" ⟨none, none⟩ orcPlain regOneA).events =
      [Event.loadConfig regOneA,
        Event.saveConfig ⟨[("a", acctProfB)], some "a"⟩,
        Event.spawnSubshell ⟨"b", "a", "1"⟩,
        Event.saveConfig ⟨[("a", acctProfB)], none⟩] := by decide
  rw [this] at he
  simp only [List.mem_cons, List.not_mem_nil, or_false] at he
  rcases he with h | h | h | h
  · cases h
  · cases h
  · cases h
    rfl
  · cases h

/-- C2 amended: for every registry holding an account record under the name
`a`, calling `use_account "a"` with no active-session marker and a successful
credential probe persists `current_account = "a"`, spawns the sub-shell with
the record's stored `profile_name` selected (together with the session
markers), then persists `current_account = None` — whatever happened inside
the sub-shell, interrupt included — and returns `true`. -/
theorem use_account_session_lifecycle (reg : Registry) (info : Account)
    (env : SessionEnv) (orc : UseOracle)
    (hmarker : env.kee_active_profile = none)
    (hacct : alookup reg.accounts "a" = some info)
    (hcreds : orc.checkCreds = true) :
    use_account "a" env orc reg =
      ⟨Outcome.ret true, { reg with current_account := none },
        [Event.loadConfig reg,
          Event.saveConfig { reg with current_account := some "a" },
          Event.spawnSubshell ⟨info.profile_name, "a", "1"⟩,
          Event.saveConfig { reg with current_account := none }]⟩ := by
  unfold use_account
  rw [hmarker]
  simp only [pyTruthy, if_false, Bool.false_eq_true]
  rw [if_neg (by simp [hacct])]
  unfold useProceed
  rw [hacct]
  dsimp only
  rw [if_neg (by simp [hcreds])]
  simp [start_subshell_eq]

/-- C2 witness: the amended lifecycle theorem applied at a concrete input. -/
theorem use_account_session_lifecycle_witness :
    (⟨none, none⟩ : SessionEnv).kee_active_profile = none ∧
    alookup regOneA.accounts "a" = some acctProfB ∧
    orcPlain.checkCreds = true ∧
    use_account "a" ⟨none, none⟩ orcPlain regOneA =
      ⟨Outcome.ret true, { regOneA with current_account := none },
        [Event.loadConfig regOneA,
          Event.saveConfig { regOneA with current_account := some "a" },
          Event.spawnSubshell ⟨acctProfB.profile_name, "a", "1"⟩,
          Event.saveConfig { regOneA with current_account := none }]⟩ :=
  ⟨rfl, by decide, rfl,
    use_account_session_lifecycle regOneA acctProfB ⟨none, none⟩ orcPlain rfl
      (by decide) rfl⟩

/-! ### C4: the guards of `remove_account` -/

/-- Concrete registry holding one account named `test-account`. -/
def regOneTest : Registry := ⟨[("test-account", acctProfB)], none⟩

/-- C4 counterexample: the claim states that any confirmation answer other
than `y` aborts without touching the persistence layer; but the code lowers
the answer first, so the answer `Y` — which is not `y` — confirms, calls
`save_config` and returns `true`. -/
theorem remove_account_uppercase_cex :
    ("Y" : String) ≠ "y" ∧
    (remove_account "test-account" ⟨"Y", false⟩ regOneTest).outcome =
        Outcome.ret true ∧
    Event.saveConfig ⟨[], none⟩ ∈
      (remove_account "test-account" ⟨"Y", false⟩ regOneTest).events := by
  refine ⟨by decide, by decide, by decide⟩

/-- C4 amended: `remove_account` mutates nothing and returns `false` unless
the name exists and the lower-cased confirmation answer is exactly `y`: an
unknown name returns `false` immediately, with no confirmation prompt and the
state unchanged; a known name whose answer does not lower-case to `y` returns
`false` without any save. -/
theorem remove_account_guards (an : String) (orc : RemoveOracle)
    (reg : Registry) :
    (alookup reg.accounts an = none →
      remove_account an orc reg =
        ⟨Outcome.ret false, reg, [Event.loadConfig reg]⟩) ∧
    (¬ pyLowerS orc.confirmAnswer = "y" →
      (remove_account an orc reg).outcome = Outcome.ret false ∧
      (remove_account an orc reg).disk = reg ∧
      ∀ r, Event.saveConfig r ∉ (remove_account an orc reg).events) := by
  constructor
  · intro h
    unfold remove_account
    rw [h]
  · intro h
    unfold remove_account
    cases hl : alookup reg.accounts an with
    | none => refine ⟨rfl, rfl, ?_⟩; intro r; simp
    | some info =>
      dsimp only
      rw [if_pos h]
      refine ⟨rfl, rfl, ?_⟩
      intro r
      simp

/-- C4 witness: the amended guard theorem applied at concrete inputs. -/
theorem remove_account_guards_witness :
    (alookup regOneTest.accounts "nonexistent" = none ∧
      remove_account "nonexistent" ⟨"y", false⟩ regOneTest =
        ⟨Outcome.ret false, regOneTest, [Event.loadConfig regOneTest]⟩) ∧
    (¬ pyLowerS "n" = "y" ∧
      (remove_account "test-account" ⟨"n", false⟩ regOneTest).outcome =
        Outcome.ret false) :=
  ⟨⟨by decide,
      (remove_account_guards "nonexistent" ⟨"y", false⟩ regOneTest).1
        (by decide)⟩,
    ⟨by decide,
      ((remove_account_guards "test-account" ⟨"n", false⟩ regOneTest).2
        (by decide)).1⟩⟩

/-! ### C6: partial failure during `remove_account` -/

/-- C6: a confirmed removal of an existing account persists the registry
deletion first; if removing the credentials-file section then raises, the
operation still returns `true` and surfaces the manual-cleanup warning after
the save, instead of reporting failure. -/
theorem remove_account_partial_failure (an : String) (info : Account)
    (reg : Registry) (ans : String)
    (hacct : alookup reg.accounts an = some info)
    (hans : pyLowerS ans = "y") :
    remove_account an ⟨ans, true⟩ reg =
      ⟨Outcome.ret true,
        ⟨delAccount reg.accounts an,
          if reg.current_account = some an then none
          else reg.current_account⟩,
        [Event.loadConfig reg, Event.confirmPrompt,
          Event.saveConfig
            ⟨delAccount reg.accounts an,
              if reg.current_account = some an then none
              else reg.current_account⟩,
          Event.tryRemoveProfile info.profile_name,
          Event.warnManualCleanup]⟩ := by
  unfold remove_account
  rw [hacct]
  dsimp only
  rw [if_neg (by simp [hans])]
  rfl

/-- C6 witness: the partial-failure theorem applied at a concrete input. -/
theorem remove_account_partial_failure_witness :
    alookup regOneTest.accounts "test-account" = some acctProfB ∧
    pyLowerS "y" = "y" ∧
    remove_account "test-account" ⟨"y", true⟩ regOneTest =
      ⟨Outcome.ret true, ⟨[], none⟩,
        [Event.loadConfig regOneTest, Event.confirmPrompt,
          Event.saveConfig ⟨[], none⟩,
          Event.tryRemoveProfile "b", Event.warnManualCleanup]⟩ := by
  refine ⟨by decide, by decide, ?_⟩
  have h := remove_account_partial_failure "test-account" acctProfB regOneTest
    "y" (by decide) (by decide)
  rw [h]
  decide

/-! ### C9: the registry-state invariant -/

/-- C9: every operation preserves the registry invariant: whenever a state
with `current_account` set is persisted, the pointer references an existing
key of `accounts` (given the loaded state satisfied the invariant);
`add_account` never changes the pointer; every state `use_account` saves
either keeps the loaded pointer, or is the activation save pointing at the
used account, or is the teardown save — pointer cleared, written
synchronously right after the sub-shell spawn as the final event of the run,
so `use_account` clears a set pointer only during session teardown; and
`remove_account` clears the pointer only when it was already clear or
referenced the removed account. -/
theorem registry_invariant_preserved (reg : Registry) (an : String)
    (aorc : AddOracle) (uorc : UseOracle) (rorc : RemoveOracle)
    (env : SessionEnv) (hInv : Inv reg) :
    (∀ r, Event.saveConfig r ∈ (add_account an aorc reg).events →
      Inv r ∧ r.current_account = reg.current_account) ∧
    (∀ r, Event.saveConfig r ∈ (use_account an env uorc reg).events →
      Inv r ∧
      (r.current_account = reg.current_account ∨
       r.current_account = some an ∨
       (r.current_account = none ∧ ∃ e pfx,
         (use_account an env uorc reg).events =
           pfx ++ [Event.spawnSubshell e, Event.saveConfig r]))) ∧
    (∀ r, Event.saveConfig r ∈ (remove_account an rorc reg).events →
      Inv r ∧ (r.current_account = none →
        reg.current_account = none ∨ reg.current_account = some an)) := by
  refine ⟨add_account_save_inv an aorc reg hInv,
    fun r hr => ⟨use_account_save_inv an env uorc reg hInv r hr,
      use_account_save_shape an env uorc reg hInv r hr⟩, ?_⟩
  · intro r hr
    unfold remove_account at hr
    cases hl : alookup reg.accounts an with
    | none =>
      rw [hl] at hr
      simp at hr
    | some info =>
      rw [hl] at hr
      dsimp only at hr
      by_cases hy : ¬ pyLowerS rorc.confirmAnswer = "y"
      · rw [if_pos hy] at hr
        simp at hr
      · rw [if_neg hy] at hr
        have hrEq : r = ⟨delAccount reg.accounts an,
            if reg.current_account = some an then none
            else reg.current_account⟩ := by
          by_cases hz : rorc.removeProfileRaises = true <;>
            simp_all
        subst hrEq
        constructor
        · unfold Inv at hInv ⊢
          dsimp only
          cases hc : reg.current_account with
          | none => simp
          | some m =>
            rw [hc] at hInv
            by_cases hca : m = an
            · simp [hca]
            · have hne : ¬ (some m = some an) := by simpa using hca
              rw [if_neg hne]
              dsimp only
              rw [lookup_delAccount, if_neg hca]
              exact hInv
        · dsimp only
          intro hnone
          by_cases hca : reg.current_account = some an
          · right
            exact hca
          · left
            rw [if_neg hca] at hnone
            exact hnone

/-! ### Round-trip infrastructure for the normalization pass

`write_config_with_formatting` renders, for each section, the merged and
interpolated option table.  The lemmas below show: (i) when every merged
value is percent-free, interpolation is the identity and the writer succeeds,
producing `renderText` of the folded document; (ii) re-reading that text
reproduces the folded document exactly, provided its sections are well-formed
for round-tripping (`WFsections`). -/

/-- Fold the `DEFAULT` entries into every section, the way `items()` merges
them before writing. -/
def foldSec (defaults : List (List Char × List Char))
    (secs : List (List Char × List (List Char × List Char))) :
    List (List Char × List (List Char × List Char)) :=
  secs.map (fun s => (s.1, dictUpdate defaults s.2))

/-- Lines the writer emits for one section. -/
def sectionLines (s : List Char × List (List Char × List Char)) :
    List (List Char) :=
  ('[' :: s.1 ++ [']']) :: s.2.map itemLine ++ [[]]

/-- Lines the writer emits for a whole document. -/
def docLines (secs : List (List Char × List (List Char × List Char))) :
    List (List Char) :=
  (secs.map sectionLines).flatten

/-- Join lines into file text, one trailing newline per line. -/
def renderLines (ls : List (List Char)) : List Char :=
  ls.foldr (fun l acc => l ++ '\n' :: acc) []

/-- Full text the writer produces for a folded document. -/
def renderText (secs : List (List Char × List (List Char × List Char))) :
    List Char :=
  renderLines (docLines secs)

/-- Well-formedness of an option key for round-tripping: what `read` itself
guarantees about parsed keys (nonempty, stripped, lower-case, delimiter-free,
not starting a comment or a bracket, single-line). -/
def wfKey (k : List Char) : Prop :=
  k ≠ [] ∧ pyStrip k = k ∧ pyLower k = k ∧
  (∀ c ∈ k, ¬ c = '\n' ∧ ¬ c = '=' ∧ ¬ c = ':') ∧
  ¬ k.headD ' ' = '[' ∧ ¬ k.headD ' ' = '#' ∧ ¬ k.headD ' ' = ';'

/-- Well-formedness of a value for round-tripping: stripped, single-line and
percent-free (so interpolation is the identity on it). -/
def wfVal (v : List Char) : Prop :=
  pyStrip v = v ∧ ∀ c ∈ v, ¬ c = '\n' ∧ ¬ c = '%'

/-- Well-formedness of a section name for round-tripping. -/
def wfName (n : List Char) : Prop :=
  n ≠ [] ∧ ¬ n = ("DEFAULT").data ∧ ∀ c ∈ n, ¬ c = ']' ∧ ¬ c = '\n'

/-- Well-formedness of a folded section list for round-tripping. -/
def WFsections
    (secs : List (List Char × List (List Char × List Char))) : Prop :=
  (secs.map Prod.fst).Nodup ∧
  ∀ s ∈ secs, wfName s.1 ∧ (s.2.map Prod.fst).Nodup ∧
    ∀ kv ∈ s.2, wfKey kv.1 ∧ wfVal kv.2

instance (k : List Char) : Decidable (wfKey k) := by
  unfold wfKey; infer_instance

instance (v : List Char) : Decidable (wfVal v) := by
  unfold wfVal; infer_instance

instance (n : List Char) : Decidable (wfName n) := by
  unfold wfName; infer_instance

instance (secs : List (List Char × List (List Char × List Char))) :
    Decidable (WFsections secs) := by
  unfold WFsections; infer_instance

/-- Helper: lexing a percent-free value yields its characters. -/
theorem tokGo_no_pct (v : List Char) (h : ∀ c ∈ v, ¬ c = '%') :
    tokGo TokMode.plain v = Except.ok (v.map Tok.ch) := by
  induction v with
  | nil => rfl
  | cons c rest ih =>
    have hc : ¬ c = '%' := (h c (List.mem_cons_self c rest))
    have hrest : ∀ x ∈ rest, ¬ x = '%' :=
      fun x hx => h x (List.mem_cons_of_mem c hx)
    simp only [tokGo, hc, if_false, ih hrest, List.map_cons]

/-- Helper: resolving pure-character tokens yields the characters back. -/
theorem interpToks_chs (m : List (List Char × List Char))
    (recur : List Char → Except IniErr (List Char)) (v : List Char) :
    interpToks m recur (v.map Tok.ch) = Except.ok v := by
  induction v with
  | nil => rfl
  | cons c rest ih => simp only [List.map_cons, interpToks, ih]

/-- Helper: interpolation is the identity on percent-free values. -/
theorem interpolateValue_no_pct (m : List (List Char × List Char))
    (v : List Char) (h : ∀ c ∈ v, ¬ c = '%') :
    interpolateValue m v = Except.ok v := by
  unfold interpolateValue interpDepth
  rw [tokGo_no_pct v h]
  exact interpToks_chs m (interpDepth m 9) v

/-- Helper: `interpItems` is the identity on percent-free tables. -/
theorem interpItems_no_pct (m l : List (List Char × List Char))
    (h : ∀ kv ∈ l, ∀ c ∈ kv.2, ¬ c = '%') :
    interpItems m l = Except.ok l := by
  induction l with
  | nil => rfl
  | cons kv rest ih =>
    have h1 := h kv (List.mem_cons_self kv rest)
    have h2 : ∀ kv2 ∈ rest, ∀ c ∈ kv2.2, ¬ c = '%' :=
      fun kv2 hkv2 => h kv2 (List.mem_cons_of_mem kv hkv2)
    simp only [interpItems, interpolateValue_no_pct m kv.2 h1, ih h2]

/-- Helper: `items()` returns the merged table itself when every merged value
is percent-free. -/
theorem itemsOf_no_pct (defaults opts : List (List Char × List Char))
    (h : ∀ kv ∈ dictUpdate defaults opts, ∀ c ∈ kv.2, ¬ c = '%') :
    itemsOf defaults opts = Except.ok (dictUpdate defaults opts) :=
  interpItems_no_pct (dictUpdate defaults opts) (dictUpdate defaults opts) h

/-- Helper: `renderLines` distributes over appends. -/
theorem renderLines_append (a b : List (List Char)) :
    renderLines (a ++ b) = renderLines a ++ renderLines b := by
  induction a with
  | nil => rfl
  | cons l rest ih => simp [renderLines, List.foldr] at ih ⊢; simp [ih]

/-- Helper: the text of one section block. -/
theorem renderLines_section (s : List Char × List (List Char × List Char)) :
    renderLines (sectionLines s) =
      '[' :: s.1 ++ [']', '\n'] ++
        (s.2.map (fun kv => itemLine kv ++ ['\n'])).flatten ++ ['\n'] := by
  unfold sectionLines
  have hi : ∀ its : List (List Char × List Char),
      renderLines (its.map itemLine ++ [[]]) =
        (its.map (fun kv => itemLine kv ++ ['\n'])).flatten ++ ['\n'] := by
    intro its
    induction its with
    | nil => rfl
    | cons kv rest ih =>
      simp only [List.map_cons, List.cons_append, renderLines, List.foldr,
        List.flatten] at ih ⊢
      simp [ih]
  simp only [renderLines, List.foldr, List.cons_append] at hi ⊢
  simp [hi]

/-- Helper: the writer produces `renderText` of the folded document and
reports success when every folded value is percent-free. -/
theorem write_renders (defaults : List (List Char × List Char))
    (secs : List (List Char × List (List Char × List Char)))
    (acc : List Char)
    (h : ∀ s ∈ secs, ∀ kv ∈ dictUpdate defaults s.2, ∀ c ∈ kv.2, ¬ c = '%') :
    write_config_with_formatting defaults secs acc =
      ⟨acc ++ renderText (foldSec defaults secs), false⟩ := by
  induction secs generalizing acc with
  | nil => simp [write_config_with_formatting, renderText, docLines, foldSec,
      renderLines]
  | cons s rest ih =>
    have h1 := h s (List.mem_cons_self s rest)
    have h2 : ∀ s2 ∈ rest, ∀ kv ∈ dictUpdate defaults s2.2, ∀ c ∈ kv.2,
        ¬ c = '%' := fun s2 hs2 => h s2 (List.mem_cons_of_mem s hs2)
    unfold write_config_with_formatting
    rw [itemsOf_no_pct defaults s.2 h1]
    dsimp only
    rw [ih _ h2]
    have : renderText (foldSec defaults (s :: rest)) =
        renderLines (sectionLines (s.1, dictUpdate defaults s.2)) ++
          renderText (foldSec defaults rest) := by
      unfold renderText docLines foldSec
      simp only [List.map_cons, List.flatten_cons]
      rw [renderLines_append]
    rw [this, renderLines_section]
    simp [List.append_assoc]

/-- Helper: lookup distributes over list append. -/
theorem alookup_append {κ α : Type} [DecidableEq κ]
    (a b : List (κ × α)) (k : κ) :
    alookup (a ++ b) k =
      match alookup a k with
      | some v => some v
      | none => alookup b k := by
  induction a with
  | nil => rfl
  | cons kv rest ih =>
    by_cases h : kv.1 = k <;> simp [alookup, h, ih]

/-- Helper: a key is absent exactly when it is not among the stored keys. -/
theorem alookup_eq_none {κ α : Type} [DecidableEq κ]
    (l : List (κ × α)) (k : κ) :
    alookup l k = none ↔ k ∉ l.map Prod.fst := by
  induction l with
  | nil => simp [alookup]
  | cons kv rest ih =>
    by_cases h : kv.1 = k
    · simp [alookup, h]
    · have h2 : ¬ k = kv.1 := fun hh => h hh.symm
      simp [alookup, h, h2, ih]

/-- Helper: `dict.update` of fresh, duplicate-free entries is an append. -/
theorem dictUpdate_fresh (d s : List (List Char × List Char))
    (hfresh : ∀ kv ∈ s, alookup d kv.1 = none)
    (hnodup : (s.map Prod.fst).Nodup) :
    dictUpdate d s = d ++ s := by
  induction s generalizing d with
  | nil => simp [dictUpdate]
  | cons kv rest ih =>
    have h1 : alookup d kv.1 = none := hfresh kv (List.mem_cons_self kv rest)
    unfold dictUpdate
    simp only [List.foldl_cons, h1, Option.isSome_none, Bool.false_eq_true,
      if_false]
    have h2 : ∀ kv2 ∈ rest, alookup (d ++ [kv]) kv2.1 = none := by
      intro kv2 hkv2
      rw [alookup_append]
      rw [hfresh kv2 (List.mem_cons_of_mem kv hkv2)]
      have : ¬ kv.1 = kv2.1 := by
        simp only [List.map_cons, List.nodup_cons] at hnodup
        intro he
        exact hnodup.1 (he ▸ List.mem_map_of_mem Prod.fst hkv2)
      simp [alookup, this]
    have h3 : (rest.map Prod.fst).Nodup := by
      simp only [List.map_cons, List.nodup_cons] at hnodup
      exact hnodup.2
    have := ih (d ++ [kv]) h2 h3
    unfold dictUpdate at this
    rw [this]
    simp

/-- Helper: `dict.update` into an empty dict keeps a duplicate-free table. -/
theorem dictUpdate_nil (s : List (List Char × List Char))
    (hnodup : (s.map Prod.fst).Nodup) :
    dictUpdate [] s = s := by
  have := dictUpdate_fresh [] s (fun kv _ => rfl) hnodup
  simpa using this

/-- Helper: `dropWhile` never lengthens a list. -/
theorem dropWhile_length_le {α : Type} (p : α → Bool) (l : List α) :
    (l.dropWhile p).length ≤ l.length := by
  induction l with
  | nil => simp
  | cons c t ih =>
    by_cases h : p c = true
    · rw [List.dropWhile_cons_of_pos h]
      exact le_trans ih (Nat.le_succ _)
    · rw [List.dropWhile_cons_of_neg h]

/-- Helper: a `dropWhile` of full length is the identity. -/
theorem dropWhile_eq_self_of_length {α : Type} (p : α → Bool) (l : List α)
    (h : (l.dropWhile p).length = l.length) : l.dropWhile p = l := by
  cases l with
  | nil => rfl
  | cons c t =>
    by_cases hc : p c = true
    · rw [List.dropWhile_cons_of_pos hc] at h
      have h1 := dropWhile_length_le p t
      simp only [List.length_cons] at h
      omega
    · rw [List.dropWhile_cons_of_neg hc]

/-- Helper: `rstrip` never lengthens a list. -/
theorem stripRight_length_le (l : List Char) :
    (stripRight l).length ≤ l.length := by
  unfold stripRight
  calc (l.reverse.dropWhile isPySpace).reverse.length
      = (l.reverse.dropWhile isPySpace).length := by rw [List.length_reverse]
    _ ≤ l.reverse.length := dropWhile_length_le _ _
    _ = l.length := List.length_reverse l

/-- Helper: a string equal to its own `strip` equals its `lstrip`. -/
theorem stripLeft_of_pyStrip (l : List Char) (h : pyStrip l = l) :
    stripLeft l = l := by
  have h1 : (stripLeft l).length ≤ l.length := dropWhile_length_le _ _
  have h2 : l.length ≤ (stripLeft l).length := by
    calc l.length = (pyStrip l).length := by rw [h]
      _ = (stripRight (stripLeft l)).length := rfl
      _ ≤ (stripLeft l).length := stripRight_length_le _
  exact dropWhile_eq_self_of_length _ l (le_antisymm h1 h2)

/-- Helper: a string equal to its own `strip` equals its `rstrip`. -/
theorem stripRight_of_pyStrip (l : List Char) (h : pyStrip l = l) :
    stripRight l = l := by
  have := stripLeft_of_pyStrip l h
  unfold pyStrip at h
  rw [this] at h
  exact h

/-- Helper: the head of a left-stripped nonempty string is not whitespace. -/
theorem head_not_ws (c : Char) (t : List Char)
    (h : stripLeft (c :: t) = c :: t) : ¬ isPySpace c = true := by
  intro hc
  unfold stripLeft at h
  rw [List.dropWhile_cons_of_pos hc] at h
  have h1 : (t.dropWhile isPySpace).length ≤ t.length := dropWhile_length_le _ _
  have h2 := congrArg List.length h
  simp only [List.length_cons] at h2
  omega

/-- Helper: left strip of a string with a non-whitespace head. -/
theorem stripLeft_cons_nonws (c : Char) (t : List Char)
    (h : ¬ isPySpace c = true) : stripLeft (c :: t) = c :: t := by
  unfold stripLeft
  rw [List.dropWhile_cons_of_neg h]

/-- Helper: left strip drops a whitespace head. -/
theorem stripLeft_cons_ws (c : Char) (t : List Char)
    (h : isPySpace c = true) : stripLeft (c :: t) = stripLeft t := by
  unfold stripLeft
  rw [List.dropWhile_cons_of_pos h]

/-- Helper: right strip keeps a string ending in a right-stripped nonempty
string. -/
theorem stripRight_append_right (a v : List Char) (hne : v ≠ [])
    (h : stripRight v = v) : stripRight (a ++ v) = a ++ v := by
  have hrev : v.reverse.dropWhile isPySpace = v.reverse := by
    unfold stripRight at h
    have := congrArg List.reverse h
    simpa using this
  cases hv : v.reverse with
  | nil => simp at hv; exact absurd hv hne
  | cons c t =>
    have hc : ¬ isPySpace c = true := by
      intro hcc
      rw [hv, List.dropWhile_cons_of_pos hcc] at hrev
      have h1 : (t.dropWhile isPySpace).length ≤ t.length :=
        dropWhile_length_le _ _
      have h2 := congrArg List.length hrev
      simp only [List.length_cons] at h2
      omega
    unfold stripRight
    rw [List.reverse_append, hv, List.cons_append,
      List.dropWhile_cons_of_neg hc]
    rw [show (c :: (t ++ a.reverse) : List Char) = (c :: t) ++ a.reverse by
      simp]
    rw [← hv]
    simp

/-- Helper: a trailing space disappears under `rstrip`. -/
theorem stripRight_append_space (k : List Char) :
    stripRight (k ++ [' ']) = stripRight k := by
  unfold stripRight
  rw [List.reverse_append]
  simp only [List.reverse_cons, List.reverse_nil, List.nil_append,
    List.singleton_append]
  rw [List.dropWhile_cons_of_pos (by decide : isPySpace ' ' = true)]

/-- Helper: the text of a section header strips to itself. -/
theorem pyStrip_header (n : List Char) :
    pyStrip ('[' :: n ++ [']']) = '[' :: n ++ [']'] := by
  unfold pyStrip
  rw [show ('[' :: n ++ [']'] : List Char) = '[' :: (n ++ [']']) by simp]
  rw [stripLeft_cons_nonws _ _ (by decide)]
  rw [show ('[' :: (n ++ [']']) : List Char) = ('[' :: n) ++ [']'] by simp]
  exact stripRight_append_right _ _ (by simp) (by decide)

/-- Helper: one unfolding step of `splitOnNl`. -/
theorem splitOnNl_cons (c : Char) (cs : List Char) :
    splitOnNl (c :: cs) =
      if c = '\n' then [] :: splitOnNl cs
      else
        match splitOnNl cs with
        | [] => [[c]]
        | l :: ls => (c :: l) :: ls := by
  rw [splitOnNl]

/-- Helper: splitting at the first newline. -/
theorem splitOnNl_append_line (l rest : List Char) (h : '\n' ∉ l) :
    splitOnNl (l ++ '\n' :: rest) = l :: splitOnNl rest := by
  induction l with
  | nil => simp [splitOnNl]
  | cons c t ih =>
    have hc : ¬ c = '\n' := fun hcc => h (hcc ▸ List.mem_cons_self c t)
    have ht : '\n' ∉ t := fun htt => h (List.mem_cons_of_mem c htt)
    rw [List.cons_append, splitOnNl_cons, if_neg hc, ih ht]

/-- Helper: splitting rendered lines recovers them plus one final blank. -/
theorem splitOnNl_renderLines (ls : List (List Char))
    (h : ∀ l ∈ ls, '\n' ∉ l) :
    splitOnNl (renderLines ls) = ls ++ [[]] := by
  induction ls with
  | nil => rfl
  | cons l rest ih =>
    have h1 : '\n' ∉ l := h l (List.mem_cons_self l rest)
    have h2 : ∀ l2 ∈ rest, '\n' ∉ l2 :=
      fun l2 hl2 => h l2 (List.mem_cons_of_mem l hl2)
    show splitOnNl (l ++ '\n' :: renderLines rest) = (l :: rest) ++ [[]]
    rw [splitOnNl_append_line l _ h1, ih h2]
    rfl

/-- Helper: no emitted line contains a newline, for well-formed sections. -/
theorem docLines_no_nl (secs : List (List Char × List (List Char × List Char)))
    (hwf : WFsections secs) :
    ∀ l ∈ docLines secs, '\n' ∉ l := by
  intro l hl
  unfold docLines at hl
  rw [List.mem_flatten] at hl
  obtain ⟨block, hblock, hlb⟩ := hl
  rw [List.mem_map] at hblock
  obtain ⟨s, hs, hsec⟩ := hblock
  obtain ⟨hname, _, hkv⟩ := hwf.2 s hs
  subst hsec
  unfold sectionLines at hlb
  rcases List.mem_cons.mp hlb with hEq | hlb2
  · subst hEq
    intro hmem
    rcases List.mem_cons.mp hmem with hc | hmem2
    · cases hc
    · rcases List.mem_append.mp hmem2 with hc | hc
      · exact (hname.2.2 _ hc).2 rfl
      · simp at hc
  · rcases List.mem_append.mp hlb2 with hitem | hblank
    · rw [List.mem_map] at hitem
      obtain ⟨kv, hkvmem, hkveq⟩ := hitem
      obtain ⟨hk, hv⟩ := hkv kv hkvmem
      subst hkveq
      intro hmem
      unfold itemLine at hmem
      rcases List.mem_append.mp hmem with hm | hm
      · rcases List.mem_append.mp hm with hm2 | hm2
        · exact (hk.2.2.2.1 _ hm2).1 rfl
        · simp at hm2
      · exact (hv.2 _ hm).1 rfl
    · rw [List.mem_singleton] at hblank
      subst hblank
      simp

/-- Helper: replacing an absent key changes nothing. -/
theorem setVal_not_mem {κ α : Type} [DecidableEq κ]
    (l : List (κ × α)) (m : κ) (y : α) (h : alookup l m = none) :
    setVal l m y = l := by
  induction l with
  | nil => rfl
  | cons kv rest ih =>
    by_cases h1 : kv.1 = m
    · simp [alookup, h1] at h
    · simp only [alookup, h1, if_false] at h
      simp [setVal, h1] at ih ⊢
      exact ih h

/-- Helper: replacing the value of the last entry, whose key is fresh in the
prefix. -/
theorem setVal_append_fresh {κ α : Type} [DecidableEq κ]
    (A : List (κ × α)) (n : κ) (x y : α) (hA : alookup A n = none) :
    setVal (A ++ [(n, x)]) n y = A ++ [(n, y)] := by
  induction A with
  | nil => simp [setVal]
  | cons kv rest ih =>
    by_cases h1 : kv.1 = n
    · simp [alookup, h1] at hA
    · simp only [alookup, h1, if_false] at hA
      simp only [List.cons_append, setVal, List.map_cons, h1, if_false]
      have := ih hA
      simp only [setVal] at this
      rw [this]

/-- Helper: option table of the current section, in the running shape. -/
theorem curOpts_insect (st : PState) (n : List Char)
    (A : List (List Char × RawOpts)) (pre : RawOpts)
    (hcur : st.cur = CurSect.inSect n)
    (hsec : st.sections = A ++ [(n, pre)]) (hA : alookup A n = none) :
    curOpts st = pre := by
  unfold curOpts
  rw [hcur, hsec]
  dsimp only
  rw [alookup_append, hA]
  simp [alookup]

/-- Helper: storing into the current section, in the running shape. -/
theorem setCurOpts_insect (st : PState) (n : List Char) (o : RawOpts)
    (hcur : st.cur = CurSect.inSect n) :
    setCurOpts st o = { st with sections := setVal st.sections n o } := by
  unfold setCurOpts
  rw [hcur]

/-- Helper: a trailing blank value line does not change the joined value. -/
theorem joinValue_append_blank (ls : List (List Char)) :
    joinValue (ls ++ [[]]) = joinValue ls := by
  unfold joinValue dropTrailingBlanks
  rw [List.reverse_append]
  simp

/-- Helper: a single stored line joins to itself. -/
theorem joinValue_single (v : List Char) : joinValue [v] = v := by
  cases v with
  | nil => rfl
  | cons c t => simp [joinValue, dropTrailingBlanks, intercalateNl]

/-- Helper: appending a blank line to some option keeps all joined values. -/
theorem joinOpts_append_blank (o : RawOpts) (k : List Char) :
    joinOpts (appendOptLine o k []) = joinOpts o := by
  induction o with
  | nil => rfl
  | cons kv rest ih =>
    by_cases h : kv.1 = k <;>
      simp [joinOpts, appendOptLine, h, joinValue_append_blank] at ih ⊢ <;>
      exact ih

/-- Helper: joined options distribute over appended tables. -/
theorem joinOpts_append (a b : RawOpts) :
    joinOpts (a ++ b) = joinOpts a ++ joinOpts b := by
  simp [joinOpts]

/-- Helper: appending a value line somewhere keeps the stored keys. -/
theorem map_fst_appendOptLine (o : RawOpts) (k x : List Char) :
    (appendOptLine o k x).map Prod.fst = o.map Prod.fst := by
  induction o with
  | nil => rfl
  | cons kv rest ih =>
    by_cases h : kv.1 = k <;> simp [appendOptLine, h] at ih ⊢ <;> exact ih

/-- Joined view of a section list. -/
def joinSecs (S : List (List Char × RawOpts)) :
    List (List Char × List (List Char × List Char)) :=
  S.map (fun s => (s.1, joinOpts s.2))

/-- Helper: padding the current option of any section with a blank line is
invisible in the joined view. -/
theorem joinSecs_pad (S : List (List Char × RawOpts)) (m k : List Char)
    (hnodup : (S.map Prod.fst).Nodup) :
    joinSecs (setVal S m (appendOptLine ((alookup S m).getD []) k [])) =
      joinSecs S := by
  induction S with
  | nil => rfl
  | cons s rest ih =>
    simp only [List.map_cons, List.nodup_cons] at hnodup
    by_cases h1 : s.1 = m
    · have hnm : alookup rest m = none := by
        rw [alookup_eq_none, ← h1]
        exact hnodup.1
      have hl : alookup (s :: rest) m = some s.2 := by simp [alookup, h1]
      rw [hl]
      simp only [Option.getD_some]
      have hsv : setVal (s :: rest) m (appendOptLine s.2 k []) =
          (s.1, appendOptLine s.2 k []) :: rest := by
        simp only [setVal, List.map_cons, if_pos h1]
        rw [show List.map
            (fun kv => if kv.1 = m then (kv.1, appendOptLine s.2 k []) else kv)
            rest = setVal rest m (appendOptLine s.2 k []) from rfl]
        rw [setVal_not_mem rest m _ hnm]
      rw [hsv]
      simp [joinSecs, joinOpts_append_blank]
    · have hl : alookup (s :: rest) m = alookup rest m := by
        simp [alookup, h1]
      rw [hl]
      have hsv : setVal (s :: rest) m
            (appendOptLine ((alookup rest m).getD []) k []) =
          s :: setVal rest m (appendOptLine ((alookup rest m).getD []) k []) := by
        simp [setVal, h1]
      rw [hsv]
      have := ih hnodup.2
      simp only [joinSecs, List.map_cons] at this ⊢
      rw [this]

/-- Helper: splitting an option line at its first delimiter. -/
theorem splitAtDelim_left (a rest : List Char)
    (h : ∀ c ∈ a, ¬ c = '=' ∧ ¬ c = ':') :
    splitAtDelim (a ++ '=' :: rest) = some (a, rest) := by
  induction a with
  | nil => simp [splitAtDelim]
  | cons c t ih =>
    have hc := h c (List.mem_cons_self c t)
    have ht : ∀ c2 ∈ t, ¬ c2 = '=' ∧ ¬ c2 = ':' :=
      fun c2 hc2 => h c2 (List.mem_cons_of_mem c hc2)
    simp only [List.cons_append, splitAtDelim]
    rw [if_neg (by simp [hc.1, hc.2])]
    rw [show t.append ('=' :: rest) = t ++ '=' :: rest from rfl, ih ht]

/-- Helper: `takeWhile` through a clean prefix up to a stopping character. -/
theorem takeWhile_not_rb (n : List Char) (h : ∀ c ∈ n, ¬ c = ']')
    (rest : List Char) :
    (n ++ ']' :: rest).takeWhile (fun x => ¬ x = ']') = n := by
  induction n with
  | nil => simp [List.takeWhile_cons]
  | cons c t ih =>
    have hc := h c (List.mem_cons_self c t)
    have ht : ∀ c2 ∈ t, ¬ c2 = ']' :=
      fun c2 hc2 => h c2 (List.mem_cons_of_mem c hc2)
    rw [List.cons_append, List.takeWhile_cons]
    rw [if_pos (by simp [hc] : decide (¬ c = ']') = true)]
    rw [ih ht]

/-- Helper: the header line is not a comment. -/
theorem lineIsComment_header (n : List Char) :
    lineIsComment ('[' :: n ++ [']']) = false := by
  unfold lineIsComment
  rw [pyStrip_header]
  rfl

/-- Helper: the header matcher accepts a well-formed header line. -/
theorem matchSectionHeader_header (n : List Char) (hwf : wfName n) :
    matchSectionHeader ('[' :: n ++ [']']) = some n := by
  rw [show matchSectionHeader ('[' :: n ++ [']']) =
      (if ('[' : Char) = '[' ∧ (n ++ [']']).contains ']' then
        if (n ++ [']']).takeWhile (fun x => ¬ x = ']') = [] then none
        else some ((n ++ [']']).takeWhile (fun x => ¬ x = ']'))
      else none) from rfl]
  have hcont : ((n ++ [']']).contains ']') = true := by simp
  have htw : (n ++ [']']).takeWhile (fun x => ¬ x = ']') = n := by
    rw [show (n ++ [']'] : List Char) = n ++ ']' :: [] from rfl]
    exact takeWhile_not_rb n (fun c hc => (hwf.2.2 c hc).1) []
  rw [if_pos ⟨rfl, hcont⟩, htw]
  rw [if_neg hwf.1]

/-- Helper: a line whose head is not `[` never matches the header regex. -/
theorem matchSectionHeader_not_lb (c : Char) (rest : List Char)
    (h : ¬ c = '[') : matchSectionHeader (c :: rest) = none := by
  rw [show matchSectionHeader (c :: rest) =
      (if c = '[' ∧ rest.contains ']' then
        if rest.takeWhile (fun x => ¬ x = ']') = [] then none
        else some (rest.takeWhile (fun x => ¬ x = ']'))
      else none) from rfl]
  rw [if_neg (fun hh => h hh.1)]

/-- Helper: a blank line with no open option leaves the state unchanged. -/
theorem parseStep_blank_none (st : PState) (h : st.optname = none) :
    parseStep st [] = Except.ok st := by
  simp [parseStep, lineIsComment, pyStrip, stripLeft, stripRight, h]

/-- Helper: a blank line with an open option appends an empty value line. -/
theorem parseStep_blank_some (st : PState) (k : List Char)
    (h : st.optname = some k) (hc : ¬ st.cur = CurSect.noSect) :
    parseStep st [] =
      Except.ok (setCurOpts st (appendOptLine (curOpts st) k [])) := by
  simp [parseStep, lineIsComment, pyStrip, stripLeft, stripRight, h, hc]

/-- Helper: one step of the read loop on a fresh section-header line. -/
theorem parseStep_header (st : PState) (n : List Char)
    (hind : st.indent = 0) (hwf : wfName n)
    (hfresh : alookup st.sections n = none) :
    parseStep st ('[' :: n ++ [']']) =
      Except.ok { st with
        sections := st.sections ++ [(n, [])]
        cur := CurSect.inSect n
        optname := none } := by
  obtain ⟨d, S, cu, op, ind⟩ := st
  simp only at hind hfresh
  subst hind
  have h1 := lineIsComment_header n
  have h2 := pyStrip_header n
  have h3 := matchSectionHeader_header n hwf
  have h4 : ('[' :: n ++ [']']).takeWhile isPySpace = [] := by
    simp [List.takeWhile_cons, isPySpace]
  simp only [List.cons_append] at h1 h2 h3 h4
  simp [parseStep, h1, h2, h3, h4, hwf.2.1, hfresh]

/-- Helper: one step of the read loop on a well-formed option line, inside a
section whose table does not yet hold the key. -/
theorem parseStep_item (st : PState) (n : List Char)
    (A : List (List Char × RawOpts)) (pre : RawOpts) (k v : List Char)
    (hcur : st.cur = CurSect.inSect n) (hind : st.indent = 0)
    (hsec : st.sections = A ++ [(n, pre)]) (hA : alookup A n = none)
    (hk : wfKey k) (hv : wfVal v) (hfresh : alookup pre k = none) :
    parseStep st (itemLine (k, v)) =
      Except.ok { st with
        sections := A ++ [(n, pre ++ [(k, [v])])]
        optname := some k } := by
  obtain ⟨d, S, cu, op, ind⟩ := st
  simp only at hcur hind hsec
  subst hcur hind hsec
  obtain ⟨hkne, hkS, hkL, hkchars, hkh1, hkh2, hkh3⟩ := hk
  obtain ⟨hvS, hvchars⟩ := hv
  cases k with
  | nil => exact absurd rfl hkne
  | cons kc kt =>
  have hkcns : ¬ isPySpace kc = true :=
    head_not_ws kc kt (stripLeft_of_pyStrip _ hkS)
  simp only [List.headD] at hkh1 hkh2 hkh3
  -- the four computed ingredients, by cases on the value being empty
  have hstrip : pyStrip (itemLine (kc :: kt, v)) =
      if v = [] then (kc :: kt) ++ [' ', '='] else itemLine (kc :: kt, v) := by
    unfold itemLine
    by_cases hvnil : v = []
    · subst hvnil
      rw [if_pos rfl]
      unfold pyStrip
      rw [show ((kc :: kt) ++ (" = ").data ++ ([] : List Char) : List Char) =
        kc :: (kt ++ [' ', '=', ' ']) by simp]
      rw [stripLeft_cons_nonws _ _ hkcns]
      rw [show (kc :: (kt ++ [' ', '=', ' ']) : List Char) =
        (kc :: kt ++ [' ', '=']) ++ [' '] by simp]
      rw [stripRight_append_space]
      rw [show (kc :: kt ++ [' ', '='] : List Char) =
        (kc :: kt ++ [' ']) ++ ['='] by simp]
      rw [stripRight_append_right _ _ (by simp) (by decide)]
    · rw [if_neg hvnil]
      unfold pyStrip
      rw [show ((kc :: kt) ++ (" = ").data ++ v : List Char) =
        kc :: (kt ++ [' ', '=', ' '] ++ v) by simp]
      rw [stripLeft_cons_nonws _ _ hkcns]
      rw [show (kc :: (kt ++ [' ', '=', ' '] ++ v) : List Char) =
        (kc :: kt ++ [' ', '=', ' ']) ++ v by simp]
      rw [stripRight_append_right _ _ hvnil (stripRight_of_pyStrip _ hvS)]
  have hsplit : splitAtDelim (if v = [] then (kc :: kt) ++ [' ', '=']
        else itemLine (kc :: kt, v)) =
      some ((kc :: kt) ++ [' '], if v = [] then [] else ' ' :: v) := by
    have hnd : ∀ c ∈ (kc :: kt) ++ [' '], ¬ c = '=' ∧ ¬ c = ':' := by
      intro c hcm
      rcases List.mem_append.mp hcm with hcm | hcm
      · exact ⟨(hkchars c hcm).2.1, (hkchars c hcm).2.2⟩
      · rw [List.mem_singleton] at hcm
        subst hcm
        exact ⟨by decide, by decide⟩
    by_cases hvnil : v = []
    · subst hvnil
      rw [if_pos rfl, if_pos rfl]
      rw [show ((kc :: kt) ++ [' ', '='] : List Char) =
        ((kc :: kt) ++ [' ']) ++ '=' :: [] by simp]
      exact splitAtDelim_left _ _ hnd
    · rw [if_neg hvnil, if_neg hvnil]
      unfold itemLine
      rw [show ((kc :: kt) ++ (" = ").data ++ v : List Char) =
        ((kc :: kt) ++ [' ']) ++ '=' :: (' ' :: v) by simp]
      exact splitAtDelim_left _ _ hnd
  have hkey : pyLower (stripRight ((kc :: kt) ++ [' '])) = kc :: kt := by
    rw [stripRight_append_space, stripRight_of_pyStrip _ hkS, hkL]
  have hval : pyStrip (if v = [] then [] else ' ' :: v) = v := by
    by_cases hvnil : v = []
    · subst hvnil
      rw [if_pos rfl]
      rfl
    · rw [if_neg hvnil]
      unfold pyStrip
      rw [stripLeft_cons_ws _ _ (by decide), stripLeft_of_pyStrip _ hvS,
        stripRight_of_pyStrip _ hvS]
  have hcomment : lineIsComment (itemLine (kc :: kt, v)) = false := by
    unfold lineIsComment
    rw [hstrip]
    by_cases hvnil : v = []
    · rw [if_pos hvnil]
      simp [hkh2, hkh3]
    · rw [if_neg hvnil]
      unfold itemLine
      rw [show ((kc :: kt) ++ (" = ").data ++ v : List Char) =
        kc :: (kt ++ [' ', '=', ' '] ++ v) by simp]
      simp [hkh2, hkh3]
  have hindent : (itemLine (kc :: kt, v)).takeWhile isPySpace = [] := by
    unfold itemLine
    rw [show ((kc :: kt) ++ (" = ").data ++ v : List Char) =
      kc :: (kt ++ [' ', '=', ' '] ++ v) by simp]
    rw [List.takeWhile_cons]
    simp [hkcns]
  have hmatch : matchSectionHeader (if v = [] then (kc :: kt) ++ [' ', '=']
        else itemLine (kc :: kt, v)) = none := by
    by_cases hvnil : v = []
    · rw [if_pos hvnil]
      exact matchSectionHeader_not_lb kc _ hkh1
    · rw [if_neg hvnil]
      unfold itemLine
      rw [show ((kc :: kt) ++ (" = ").data ++ v : List Char) =
        kc :: (kt ++ [' ', '=', ' '] ++ v) by simp]
      exact matchSectionHeader_not_lb kc _ hkh1
  have hvalne : ¬ (if v = [] then (kc :: kt) ++ [' ', '=']
      else itemLine (kc :: kt, v)) = [] := by
    by_cases hvnil : v = []
    · rw [if_pos hvnil]
      simp
    · rw [if_neg hvnil]
      unfold itemLine
      simp
  have hcuropts : curOpts ⟨d, A ++ [(n, pre)], CurSect.inSect n, op, 0⟩ =
      pre :=
    curOpts_insect _ n A pre rfl rfl hA
  have hsetval := setVal_append_fresh A n pre (pre ++ [(kc :: kt, [v])]) hA
  have halook : alookup (A ++ [(n, pre)]) n = some pre := by
    rw [alookup_append, hA]
    simp [alookup]
  simp only [parseStep, hcomment, hstrip, hindent, hsplit, hkey, hval,
    hmatch, hvalne, Bool.false_eq_true, if_false, List.length_nil,
    Nat.lt_irrefl, and_false, false_and, hcuropts, hfresh, curOpts,
    setCurOpts, hsetval]
  simp [halook, hfresh, hsetval]

/-- Helper: a blank line before the first section leaves the state
unchanged. -/
theorem parseStep_blank_nosect (st : PState)
    (h : st.cur = CurSect.noSect) : parseStep st [] = Except.ok st := by
  simp [parseStep, lineIsComment, pyStrip, stripLeft, stripRight, h]

/-- Helper: running the read loop over one section's item lines followed by
its blank separator extends the current section's raw table by exactly those
items (up to join-invisible padding). -/
theorem go_items_blank (its : List (List Char × List Char)) :
    ∀ (st : PState) (n : List Char) (A : List (List Char × RawOpts))
      (pre : RawOpts) (rest : List (List Char)),
      st.cur = CurSect.inSect n → st.indent = 0 →
      st.sections = A ++ [(n, pre)] → alookup A n = none →
      (pre.map Prod.fst ++ its.map Prod.fst).Nodup →
      (∀ kv ∈ its, wfKey kv.1 ∧ wfVal kv.2) →
      ∃ st2 raw,
        parseLinesGo st (its.map itemLine ++ ([] :: rest)) =
          parseLinesGo st2 rest ∧
        st2.defaults = st.defaults ∧ st2.cur = st.cur ∧ st2.indent = 0 ∧
        st2.sections = A ++ [(n, raw)] ∧
        joinOpts raw = joinOpts pre ++ its ∧
        raw.map Prod.fst = pre.map Prod.fst ++ its.map Prod.fst := by
  induction its with
  | nil =>
    intro st n A pre rest hcur hind hsec hA hnodup hwf
    cases hop : st.optname with
    | none =>
      refine ⟨st, pre, ?_, rfl, rfl, hind, hsec, by simp, by simp⟩
      simp only [List.map_nil, List.nil_append, parseLinesGo]
      rw [parseStep_blank_none st hop]
    | some k =>
      have hcne : ¬ st.cur = CurSect.noSect := by rw [hcur]; simp
      have hco : curOpts st = pre := curOpts_insect st n A pre hcur hsec hA
      have hsv := setVal_append_fresh A n pre (appendOptLine pre k []) hA
      refine ⟨setCurOpts st (appendOptLine (curOpts st) k []),
        appendOptLine pre k [], ?_, ?_, ?_, ?_, ?_, ?_, ?_⟩
      · simp only [List.map_nil, List.nil_append, parseLinesGo]
        rw [parseStep_blank_some st k hop hcne]
      · rw [setCurOpts_insect st n _ hcur]
      · rw [setCurOpts_insect st n _ hcur]
      · rw [setCurOpts_insect st n _ hcur]
        exact hind
      · rw [setCurOpts_insect st n _ hcur]
        rw [hco, hsec, hsv]
      · rw [joinOpts_append_blank]
        simp
      · rw [map_fst_appendOptLine]
        simp
  | cons kv its ih =>
    intro st n A pre rest hcur hind hsec hA hnodup hwf
    have hkv := hwf kv (List.mem_cons_self kv its)
    have hfresh : alookup pre kv.1 = none := by
      rw [alookup_eq_none]
      intro hmem
      rcases List.nodup_append.mp (by simpa using hnodup) with ⟨_, _, hdisj⟩
      exact hdisj hmem (List.mem_cons_self kv.1 _)
    have hstep := parseStep_item st n A pre kv.1 kv.2 hcur hind hsec hA
      hkv.1 hkv.2 hfresh
    obtain ⟨st2, raw, hgo, hdef2, hcur2, hind2, hsec2, hjoin2, hkeys2⟩ :=
      ih { st with
            sections := A ++ [(n, pre ++ [(kv.1, [kv.2])])]
            optname := some kv.1 }
        n A (pre ++ [(kv.1, [kv.2])]) rest (by simpa using hcur) (by simpa using hind)
        (by simp) hA
        (by
          simp only [List.map_append, List.map_cons, List.map_nil] at hnodup ⊢
          simpa [List.append_assoc] using hnodup)
        (fun kv2 hkv2 => hwf kv2 (List.mem_cons_of_mem kv hkv2))
    refine ⟨st2, raw, ?_, ?_, ?_, hind2, hsec2, ?_, ?_⟩
    · rw [List.map_cons, List.cons_append]
      show (match parseStep st (itemLine kv) with
        | Except.error e => Except.error e
        | Except.ok stx => parseLinesGo stx (its.map itemLine ++ ([] :: rest)))
          = parseLinesGo st2 rest
      rw [show itemLine kv = itemLine (kv.1, kv.2) by rfl, hstep]
      exact hgo
    · simpa using hdef2
    · rw [hcur2]
    · rw [hjoin2, joinOpts_append]
      simp [joinOpts, joinValue_single, List.append_assoc]
    · rw [hkeys2]
      simp [List.append_assoc]

/-- Helper: one accepted line advances the read loop. -/
theorem parseLinesGo_cons_ok (st : PState) (l : List Char)
    (ls : List (List Char)) (st1 : PState)
    (h : parseStep st l = Except.ok st1) :
    parseLinesGo st (l :: ls) = parseLinesGo st1 ls := by
  conv_lhs => rw [parseLinesGo]
  rw [h]

/-- Helper: running the read loop over the rendered lines of well-formed
sections, followed by the final blank line of the file, appends exactly those
sections in the joined view. -/
theorem go_sections (secs : List (List Char × List (List Char × List Char))) :
    ∀ st : PState,
      st.defaults = [] → st.indent = 0 → ¬ st.cur = CurSect.defSect →
      (st.sections.map Prod.fst).Nodup →
      (∀ s ∈ secs, alookup st.sections s.1 = none) →
      WFsections secs →
      ∃ st2, parseLinesGo st (docLines secs ++ [[]]) = Except.ok st2 ∧
        st2.defaults = [] ∧
        joinSecs st2.sections = joinSecs st.sections ++ secs := by
  induction secs with
  | nil =>
    intro st hdef hind hcd hnodup hfresh hwf
    simp only [docLines, List.map_nil, List.flatten_nil, List.nil_append]
    cases hop : st.optname with
    | none =>
      refine ⟨st, ?_, hdef, by simp⟩
      simp only [parseLinesGo]
      rw [parseStep_blank_none st hop]
    | some k =>
      cases hcu : st.cur with
      | noSect =>
        refine ⟨st, ?_, hdef, by simp⟩
        simp only [parseLinesGo]
        rw [parseStep_blank_nosect st hcu]
      | defSect => exact absurd hcu hcd
      | inSect m =>
        have hcne : ¬ st.cur = CurSect.noSect := by rw [hcu]; simp
        refine ⟨setCurOpts st (appendOptLine (curOpts st) k []), ?_, ?_, ?_⟩
        · simp only [parseLinesGo]
          rw [parseStep_blank_some st k hop hcne]
        · rw [setCurOpts_insect st m _ hcu]
          exact hdef
        · rw [setCurOpts_insect st m _ hcu]
          have : curOpts st = (alookup st.sections m).getD [] := by
            unfold curOpts
            rw [hcu]
          rw [this]
          rw [show (setVal st.sections m
              (appendOptLine ((alookup st.sections m).getD []) k [])) =
            setVal st.sections m
              (appendOptLine ((alookup st.sections m).getD []) k []) from rfl]
          rw [joinSecs_pad st.sections m k hnodup]
          simp
  | cons s rest ih =>
    intro st hdef hind hcd hnodup hfresh hwf
    obtain ⟨hnames, hall⟩ := hwf
    have hs := hall s (List.mem_cons_self s rest)
    have hsfresh := hfresh s (List.mem_cons_self s rest)
    have hlines : docLines (s :: rest) ++ [[]] =
        ('[' :: s.1 ++ [']']) ::
          (s.2.map itemLine ++ ([] :: (docLines rest ++ [[]]))) := by
      simp [docLines, sectionLines, List.append_assoc]
    rw [hlines]
    have hstep := parseStep_header st s.1 hind hs.1 hsfresh
    obtain ⟨st2, raw, hgo, hdef2, hcur2, hind2, hsec2, hjoin2, hkeys2⟩ :=
      go_items_blank s.2
        { st with
            sections := st.sections ++ [(s.1, [])]
            cur := CurSect.inSect s.1
            optname := none }
        s.1 st.sections [] (docLines rest ++ [[]])
        rfl (by simpa using hind) (by simp) (by
          rw [alookup_eq_none]
          exact (alookup_eq_none st.sections s.1).mp hsfresh)
        (by simpa using hs.2.1) hs.2.2
    have hnotmem : s.1 ∉ st.sections.map Prod.fst :=
      (alookup_eq_none st.sections s.1).mp hsfresh
    obtain ⟨st3, hgo3, hdef3, hjoin3⟩ := ih st2
      (by rw [hdef2]; simpa using hdef)
      hind2
      (by rw [hcur2]; simp)
      (by
        rw [hsec2]
        simp only [List.map_append, List.map_cons, List.map_nil]
        rw [List.nodup_append]
        refine ⟨hnodup, by simp, ?_⟩
        intro a ha
        simp only [List.mem_singleton]
        intro hEq
        exact hnotmem (hEq ▸ ha))
      (by
        intro r hr
        rw [hsec2, alookup_append]
        rw [hfresh r (List.mem_cons_of_mem s hr)]
        have hne : ¬ s.1 = r.1 := by
          simp only [List.map_cons, List.nodup_cons] at hnames
          intro hEq
          exact hnames.1 (hEq ▸ List.mem_map_of_mem Prod.fst hr)
        simp [alookup, hne])
      (by
        refine ⟨?_, fun s2 hs2 => hall s2 (List.mem_cons_of_mem s hs2)⟩
        simp only [List.map_cons, List.nodup_cons] at hnames
        exact hnames.2)
    refine ⟨st3, ?_, hdef3, ?_⟩
    · rw [parseLinesGo_cons_ok st _ _ _ hstep, hgo, hgo3]
    · rw [hjoin3, hsec2]
      unfold joinSecs
      simp only [List.map_append, List.map_cons, List.map_nil]
      rw [show joinOpts raw = s.2 by rw [hjoin2]; simp [joinOpts]]
      simp [joinSecs, List.append_assoc]

/-- Helper: reading back the rendered text of well-formed sections
reproduces exactly those sections, with no `DEFAULT` entries. -/
theorem parse_render (secs : List (List Char × List (List Char × List Char)))
    (hwf : WFsections secs) :
    parseIni (renderText secs) = Except.ok ⟨[], secs⟩ := by
  unfold parseIni renderText
  rw [splitOnNl_renderLines _ (docLines_no_nl secs hwf)]
  obtain ⟨st2, hgo, hdef, hjoin⟩ := go_sections secs initPState rfl rfl
    (by simp [initPState]) (by simp [initPState]) (fun s _ => rfl) hwf
  rw [show parseLinesGo initPState (docLines secs ++ [[]]) = Except.ok st2
    from hgo]
  show Except.ok
      ⟨joinOpts st2.defaults, st2.sections.map (fun s => (s.1, joinOpts s.2))⟩ =
    Except.ok (IniDoc.mk [] secs)
  rw [hdef]
  have hsec : st2.sections.map (fun s => (s.1, joinOpts s.2)) = secs := by
    rw [show st2.sections.map (fun s => (s.1, joinOpts s.2)) =
      joinSecs st2.sections from rfl, hjoin]
    simp [joinSecs, initPState]
  rw [hsec]
  rfl

/-- Helper: folding an empty `DEFAULT` table changes nothing. -/
theorem foldSec_nil (F : List (List Char × List (List Char × List Char)))
    (h : ∀ s ∈ F, (s.2.map Prod.fst).Nodup) : foldSec [] F = F := by
  induction F with
  | nil => rfl
  | cons s rest ih =>
    unfold foldSec
    simp only [List.map_cons]
    rw [dictUpdate_nil s.2 (h s (List.mem_cons_self s rest))]
    have := ih (fun s2 hs2 => h s2 (List.mem_cons_of_mem s hs2))
    unfold foldSec at this
    rw [this]

/-- Helper: well-formedness survives filtering sections out. -/
theorem WFsections_filter
    (secs : List (List Char × List (List Char × List Char)))
    (p : List Char × List (List Char × List Char) → Bool)
    (hwf : WFsections secs) : WFsections (secs.filter p) := by
  refine ⟨?_, fun s hs => hwf.2 s (List.mem_of_mem_filter hs)⟩
  exact hwf.1.sublist ((List.filter_sublist secs).map Prod.fst)

/-- Helper: the filtered-out key is gone. -/
theorem alookup_filter_self {α : Type} (l : List (List Char × α))
    (k : List Char) :
    alookup (l.filter (fun s => ¬ s.1 = k)) k = none := by
  induction l with
  | nil => rfl
  | cons s rest ih =>
    rw [List.filter_cons]
    by_cases h : s.1 = k
    · rw [if_neg (by simp [h])]
      exact ih
    · rw [if_pos (by simp [h])]
      simp only [alookup]
      rw [if_neg h]
      exact ih

/-- Helper: other keys are untouched by the filter. -/
theorem alookup_filter_other {α : Type} (l : List (List Char × α))
    (k b : List Char) (h : ¬ b = k) :
    alookup (l.filter (fun s => ¬ s.1 = k)) b = alookup l b := by
  induction l with
  | nil => rfl
  | cons s rest ih =>
    rw [List.filter_cons]
    by_cases h1 : s.1 = k
    · have h2 : ¬ s.1 = b := fun hh => h (hh.symm.trans h1)
      rw [if_neg (by simp [h1])]
      rw [ih]
      simp only [alookup]
      rw [if_neg h2]
    · rw [if_pos (by simp [h1])]
      simp only [alookup]
      by_cases h2 : s.1 = b
      · rw [if_pos h2, if_pos h2]
      · rw [if_neg h2, if_neg h2]
        exact ih

/-- Helper: the percent-freeness needed by the writer, for a folded document
that is well-formed. -/
theorem wf_fold_no_pct (defaults : List (List Char × List Char))
    (secs : List (List Char × List (List Char × List Char)))
    (hwf : WFsections (foldSec defaults secs)) :
    ∀ s ∈ secs, ∀ kv ∈ dictUpdate defaults s.2, ∀ c ∈ kv.2, ¬ c = '%' := by
  intro s hs kv hkv c hc
  have hmem : (s.1, dictUpdate defaults s.2) ∈ foldSec defaults secs := by
    unfold foldSec
    exact List.mem_map_of_mem _ hs
  exact (((hwf.2 _ hmem).2.2 kv hkv).2.2 c hc).2

/-! ### C5, C8: counterexamples from `BasicInterpolation` -/

/-- C9 witness: the invariant-preservation theorem applied at a concrete
registry satisfying the invariant. -/
theorem registry_invariant_preserved_witness :
    Inv regOneA ∧
    (∀ r, Event.saveConfig r ∈
        (use_account "a" ⟨none, none⟩ orcPlain regOneA).events →
      Inv r ∧
      (r.current_account = regOneA.current_account ∨
       r.current_account = some "a" ∨
       (r.current_account = none ∧ ∃ e pfx,
         (use_account "a" ⟨none, none⟩ orcPlain regOneA).events =
           pfx ++ [Event.spawnSubshell e, Event.saveConfig r]))) :=
  ⟨trivial,
    (registry_invariant_preserved regOneA "a"
      ⟨SubprocOutcome.exited 1, none, false⟩ orcPlain ⟨"y", false⟩
      ⟨none, none⟩ trivial).2.1⟩

end Kee
